import Mathlib

/-!
Verification of the chowbea-axios OpenAPI client generator.

The development shallowly embeds the generator core from
`src/lib/generator.ts`, the validate command from `src/commands/validate.ts`
and the diff command. Spec documents are modelled as dynamically shaped JSON
values; JavaScript property access, truthiness, `Object.entries`, optional
chaining and nullish coalescing are modelled explicitly, and expressions that
can raise a runtime `TypeError` return `Except`.
-/

namespace Chowbea

/-- A decoded JSON value, as produced by `JSON.parse`. Numbers are modelled as
integers (no claim depends on fractional values). -/
inductive Json where
  | null
  | bool (b : Bool)
  | num (n : Int)
  | str (s : String)
  | arr (elems : List Json)
  | obj (fields : List (String × Json))
deriving Repr

mutual

def Json.beq : Json → Json → Bool
  | .null, .null => true
  | .bool a, .bool b => a == b
  | .num a, .num b => a == b
  | .str a, .str b => a == b
  | .arr a, .arr b => Json.beqList a b
  | .obj a, .obj b => Json.beqFields a b
  | _, _ => false

def Json.beqList : List Json → List Json → Bool
  | [], [] => true
  | a :: as, b :: bs => Json.beq a b && Json.beqList as bs
  | _, _ => false

def Json.beqFields : List (String × Json) → List (String × Json) → Bool
  | [], [] => true
  | (k1, v1) :: as, (k2, v2) :: bs => k1 == k2 && Json.beq v1 v2 && Json.beqFields as bs
  | _, _ => false

end

instance : BEq Json := ⟨Json.beq⟩

/-- JavaScript truthiness of a value. -/
def truthy : Json → Bool
  | .null => false
  | .bool b => b
  | .num n => n != 0
  | .str s => s != ""
  | .arr _ => true
  | .obj _ => true

/-- Truthiness where `none` models the JavaScript `undefined`. -/
def truthyOpt : Option Json → Bool
  | none => false
  | some j => truthy j

/-- Property read `o[k]` on a value that is not `null`/`undefined`.
Primitives are boxed and own none of the properties we read, so only
objects yield a value; a missing property is `undefined` (`none`). -/
def getProp : Json → String → Option Json
  | .obj fs, k => (fs.find? (fun p => p.1 == k)).map (fun p => p.2)
  | _, _ => none

/-- `item[k]` where `item` may be `null`: JavaScript raises a `TypeError` on a
null receiver, which the generator source does not guard against. -/
def readMethodProp (item : Json) (k : String) : Except String (Option Json) :=
  match item with
  | .null => .error "TypeError: cannot read properties of null"
  | j => .ok (getProp j k)

/-- `Object.entries`: own enumerable properties. Objects list their fields,
arrays and strings list index/element pairs, other primitives have none. -/
def jsEntries : Json → List (String × Json)
  | .obj fs => fs
  | .arr xs => ((List.range xs.length).zip xs).map (fun p => (toString p.1, p.2))
  | .str s => ((List.range s.length).zip s.data).map
      (fun p => (toString p.1, Json.str (String.singleton p.2)))
  | _ => []

/-- The JavaScript `x ?? y` where `none` is `undefined`. -/
def jsCoalesce (x : Option Json) (y : Json) : Json :=
  match x with
  | none => y
  | some .null => y
  | some v => v

/-- Does the (possibly `undefined`) value hold a string? -/
def isStringOpt : Option Json → Bool
  | some (.str _) => true
  | _ => false

/-- Is the value a string? -/
def isStringJson : Json → Bool
  | .str _ => true
  | _ => false

/-! ## Path parameter extraction and naming (`generator.ts`, lines 57-82) -/

mutual

/-- One left-to-right pass of the global regex `/\\{([^}]+)\\}/g`: outside a
match attempt, scan for an opening brace. -/
def ppGo : List Char → List String
  | [] => []
  | c :: rest =>
    if c = '\x7b' then ppName rest []
    else ppGo rest

/-- Inside a match attempt after an opening brace: accumulate the non-`\x7d`
capture characters; a closing brace ends the match (an empty capture is a
failed match and the regex advances one position, i.e. past the closing
brace neither can start a match); end of input without a closing brace means
no further match exists. -/
def ppName : List Char → List Char → List String
  | [], _ => []
  | c :: rest, acc =>
    if c = '\x7d' then
      if acc.isEmpty then ppGo rest
      else String.mk acc.reverse :: ppGo rest
    else ppName rest (c :: acc)

end

/-- `extractPathParams` from `generator.ts`:
`pathTemplate.matchAll(/\{([^}]+)\}/g)` mapped to the first capture group. -/
def extractPathParams (pathTemplate : String) : List String :=
  ppGo pathTemplate.data

/-- `toCamelCase` on the character list: the global replace
`str.replace(/[-_]([a-z])/g, (_, letter) => letter.toUpperCase())`.
`[a-z]` is the code point range 97-122. -/
def camelChars : List Char → List Char
  | [] => []
  | [c] => [c]
  | c :: d :: rest =>
    if (c = '-' ∨ c = '_') ∧ (97 ≤ d.toNat ∧ d.toNat ≤ 122) then
      d.toUpper :: camelChars rest
    else
      c :: camelChars (d :: rest)

/-- `toCamelCase` from `generator.ts`, lines 66-70. -/
def toCamelCase (str : String) : String :=
  String.mk (camelChars str.data)

/-- `generatePathParamsType` from `generator.ts`, lines 75-82. -/
def generatePathParamsType (pathParams : List String) : Option String :=
  if pathParams.length = 0 then none
  else some ("\x7b " ++
    String.intercalate ", " (pathParams.map (fun param => toCamelCase param ++ ": string | number"))
    ++ " \x7d")

/-! ## Operation metadata and per-operation rendering (`generator.ts`, lines 87-177) -/

/-- `OperationMetadata`. The `summary` and `description` fields are declared
`string` in the source but filled through an unchecked `as string` cast with a
`?? ""` fallback, so at runtime they hold whatever non-nullish value the spec
carried; they are therefore modelled as `Json`. -/
structure OperationMetadata where
  operationId : String
  method : String
  path : String
  pathParams : List String
  hasRequestBody : Bool
  hasQueryParams : Bool
  summary : Json
  description : Json
deriving Repr

mutual

/-- `String()` conversion: how a value prints inside a template literal. -/
def jsToString : Json → String
  | .null => "null"
  | .bool b => if b then "true" else "false"
  | .num n => toString n
  | .str s => s
  | .arr xs => String.intercalate "," (jsToStringElems xs)
  | .obj _ => "[object Object]"

def jsToStringElems : List Json → List String
  | [] => []
  | .null :: xs => "" :: jsToStringElems xs
  | x :: xs => jsToString x :: jsToStringElems xs

end

/-- ASCII lower-casing, the effect of `toLowerCase()` on the method names the
generator handles. -/
def jsToLower (s : String) : String :=
  String.mk (s.data.map Char.toLower)

/-- ASCII upper-casing, the effect of `toUpperCase()` on the method names the
generator handles. -/
def jsToUpper (s : String) : String :=
  String.mk (s.data.map Char.toUpper)

/-- The `apiCall` selection of `generateOperationFunction`
(`generator.ts`, lines 151-173): body requests pass `data`; a body-less
`patch` passes an explicit `undefined` in the data slot; other body-less
methods omit the slot. -/
def buildApiCall (httpMethod pathTemplate : String)
    (hasRequestBody hasPathParams : Bool) : String :=
  if hasRequestBody then
    if hasPathParams then
      "apiClient." ++ httpMethod ++ "(\"" ++ pathTemplate ++ "\", data, pathParams, config)"
    else
      "apiClient." ++ httpMethod ++ "(\"" ++ pathTemplate ++ "\", data, config)"
  else
    if httpMethod = "patch" then
      if hasPathParams then
        "apiClient." ++ httpMethod ++ "(\"" ++ pathTemplate ++ "\", undefined, pathParams, config)"
      else
        "apiClient." ++ httpMethod ++ "(\"" ++ pathTemplate ++ "\", undefined, config)"
    else
      if hasPathParams then
        "apiClient." ++ httpMethod ++ "(\"" ++ pathTemplate ++ "\", pathParams, config)"
      else
        "apiClient." ++ httpMethod ++ "(\"" ++ pathTemplate ++ "\", config)"

/-- `generateOperationFunction` from `generator.ts`, lines 101-177. -/
def generateOperationFunction (operation : OperationMetadata) : String :=
  let httpMethod := jsToLower operation.method
  let params : List String :=
    (if operation.pathParams.length > 0 then
      ["pathParams: " ++
        (match generatePathParamsType operation.pathParams with
         | some t => t
         | none => "null")]
     else [])
    ++ (if operation.hasRequestBody then
      ["data: RequestBody<\"" ++ operation.path ++ "\", \"" ++ httpMethod ++ "\">"]
     else [])
    ++ ["config?: RequestConfig<\"" ++ operation.path ++ "\", \"" ++ httpMethod ++ "\">"]
  let jsdoc : List String :=
    ["  /**"]
    ++ (if truthy operation.summary then ["   * " ++ jsToString operation.summary] else [])
    ++ (if truthy operation.description && ! Json.beq operation.description operation.summary then
          ["   * " ++ jsToString operation.description] else [])
    ++ ["   * ",
        "   * @operationId " ++ operation.operationId,
        "   * @method " ++ jsToUpper operation.method,
        "   * @path " ++ operation.path,
        "   */"]
  let functionParams := String.intercalate ", " params
  let returnType :=
    "Promise<Result<ResponseData<\"" ++ operation.path ++ "\", \"" ++ httpMethod ++ "\">>>"
  let apiCall :=
    buildApiCall httpMethod operation.path operation.hasRequestBody (operation.pathParams.length > 0)
  String.intercalate "\n" jsdoc ++ "\n  " ++ operation.operationId ++ ": ("
    ++ functionParams ++ "): " ++ returnType ++ " => " ++ apiCall ++ ",\n"

/-! ## Spec traversal: `parseOperations` (`generator.ts`, lines 182-244)

The logger calls only report progress and never change the returned value, so
they are dropped. Runtime `TypeError`s, which the dynamic casts in the source
do not rule out, surface as `Except.error`. -/

/-- The fixed iteration order over HTTP methods. -/
def methodList : List String := ["get", "post", "put", "delete", "patch"]

/-- The callback of `parameters.some((param) => param.in === "query")`,
folded with the short-circuiting of `Array.prototype.some`: reading `in` on a
`null` element raises, elements after the first match are not visited. -/
def jsSomeQuery : List Json → Except String Bool
  | [] => .ok false
  | .null :: _ => .error "TypeError: cannot read properties of null"
  | x :: xs =>
    if getProp x "in" == some (.str "query") then .ok true
    else jsSomeQuery xs

/-- `parameters?.some((param) => param.in === "query") ?? false`: optional
chaining only short-circuits a nullish receiver, so a truthy non-array value
reaches the `.some` call and raises a `TypeError`. -/
def hasQueryParamsOf : Option Json → Except String Bool
  | none => .ok false
  | some .null => .ok false
  | some (.arr xs) => jsSomeQuery xs
  | some _ => .error "TypeError: parameters.some is not a function"

/-- The extractor admission rule for `operationId`
(`!operation.operationId || typeof operation.operationId !== "string"`):
only a non-empty string passes; everything else is skipped. -/
def extractorOpId : Option Json → Option String
  | some (.str s) => if s = "" then none else some s
  | _ => none

/-- One (path, method) step of `parseOperations`: skip absent or falsy
operations, skip (with a warning) a falsy or non-string `operationId`,
otherwise build the descriptor. -/
def parseOp (pathTemplate method : String) (pathItem : Json) :
    Except String (Option OperationMetadata) := do
  let operationOpt ← readMethodProp pathItem method
  match operationOpt with
  | none => .ok none
  | some operation =>
    if ¬ truthy operation then .ok none
    else
      match extractorOpId (getProp operation "operationId") with
      | none => .ok none
      | some idStr => do
        let pathParams := extractPathParams pathTemplate
        let hasRequestBody := truthyOpt (getProp operation "requestBody")
        let hasQueryParams ← hasQueryParamsOf (getProp operation "parameters")
        .ok (some {
          operationId := idStr
          method := method
          path := pathTemplate
          pathParams := pathParams
          hasRequestBody := hasRequestBody
          hasQueryParams := hasQueryParams
          summary := jsCoalesce (getProp operation "summary") (.str "")
          description := jsCoalesce (getProp operation "description") (.str "") })

/-- The inner method loop of `parseOperations`. -/
def parseMethods (pathTemplate : String) (pathItem : Json) :
    List String → Except String (List OperationMetadata)
  | [] => .ok []
  | m :: ms => do
    let o ← parseOp pathTemplate m pathItem
    let rest ← parseMethods pathTemplate pathItem ms
    match o with
    | none => .ok rest
    | some meta => .ok (meta :: rest)

/-- The outer path loop of `parseOperations`. -/
def parseEntries : List (String × Json) → Except String (List OperationMetadata)
  | [] => .ok []
  | (pathTemplate, pathItem) :: rest => do
    let ops ← parseMethods pathTemplate pathItem methodList
    let more ← parseEntries rest
    .ok (ops ++ more)

/-- The path entries `parseOperations` iterates: empty when the spec is not a
JavaScript object (arrays pass the `typeof` test), when `paths` is absent, or
when `paths` is falsy. -/
def specPathEntries (spec : Json) : List (String × Json) :=
  match spec with
  | .null | .bool _ | .num _ | .str _ => []
  | _ =>
    match getProp spec "paths" with
    | none => []
    | some paths => if truthy paths then jsEntries paths else []

/-- `parseOperations` from `generator.ts`, lines 182-244. -/
def parseOperations (spec : Json) : Except String (List OperationMetadata) :=
  match spec with
  | .null | .bool _ | .num _ | .str _ => .ok []
  | _ =>
    match getProp spec "paths" with
    | none => .ok []
    | some paths =>
      if truthy paths then parseEntries (jsEntries paths) else .ok []

theorem parseOperations_eq_parseEntries (spec : Json) :
    parseOperations spec = parseEntries (specPathEntries spec) := by
  cases spec with
  | obj fs =>
    simp only [parseOperations, specPathEntries]
    cases getProp (.obj fs) "paths" with
    | none => rfl
    | some p =>
      by_cases hp : truthy p
      · simp [hp]
      · simp [hp, parseEntries]
  | _ => rfl

/-- The operations-file header up to the stamped timestamp. -/
def operationsHeaderPre : String :=
  "/**\n"
  ++ " * Auto-generated API operations from OpenAPI spec.\n"
  ++ " * \n"
  ++ " * This file is automatically generated by chowbea-axios CLI.\n"
  ++ " * DO NOT EDIT MANUALLY - your changes will be overwritten.\n"
  ++ " * \n"
  ++ " * Last generated: "

/-- The header between the timestamp and the operation count. -/
def operationsHeaderMid : String :=
  "\n"
  ++ " * Total operations: "

/-- The rest of the header: type helpers and the factory opening. -/
def operationsHeaderPost : String :=
  "\n"
  ++ " */\n"
  ++ "\n"
  ++ "/* ~ =================================== ~ */\n"
  ++ "/* -- This file provides semantic operation-based API functions -- */\n"
  ++ "/* -- Use apiClient.op.operationName() instead of raw paths -- */\n"
  ++ "/* ~ =================================== ~ */\n"
  ++ "\n"
  ++ "import type \x7b paths \x7d from \"./api.types\"\n"
  ++ "import type \x7b AxiosRequestConfig \x7d from \"axios\"\n"
  ++ "import type \x7b Result \x7d from \"../api.error\"\n"
  ++ "\n"
  ++ "/* ~ =================================== ~ */\n"
  ++ "/* -- Type Helpers -- */\n"
  ++ "/* ~ =================================== ~ */\n"
  ++ "\n"
  ++ "/**\n"
  ++ " * Extracts the operation definition for a given path and method.\n"
  ++ " */\n"
  ++ "type Operation<\n"
  ++ "  P extends keyof paths,\n"
  ++ "  M extends \"get\" | \"post\" | \"put\" | \"delete\" | \"patch\"\n"
  ++ "> = paths[P][M]\n"
  ++ "\n"
  ++ "/**\n"
  ++ " * Maps OpenAPI form-data field types to their runtime equivalents.\n"
  ++ " * Uses field names to intelligently detect file upload fields vs regular string fields.\n"
  ++ " * \n"
  ++ " * File field patterns: images, files, attachments, uploads, documents, photos, videos, media\n"
  ++ " * Regular string fields: All other string/string[] fields remain unchanged\n"
  ++ " */\n"
  ++ "type MapFormDataTypes<T> = T extends Record<string, unknown>\n"
  ++ "  ? \x7b\n"
  ++ "      [K in keyof T]: \n"
  ++ "        // Check if field name suggests it\x27s a file upload field\n"
  ++ "        K extends `$\x7bstring\x7dimage$\x7bstring\x7d` | `$\x7bstring\x7dfile$\x7bstring\x7d` | `$\x7bstring\x7dattachment$\x7bstring\x7d` | \n"
  ++ "                   `$\x7bstring\x7dupload$\x7bstring\x7d` | `$\x7bstring\x7ddocument$\x7bstring\x7d` | `$\x7bstring\x7dphoto$\x7bstring\x7d` | \n"
  ++ "                   `$\x7bstring\x7dvideo$\x7bstring\x7d` | `$\x7bstring\x7dmedia$\x7bstring\x7d`\n"
  ++ "          ? T[K] extends string[]\n"
  ++ "            ? File[]  // File upload fields become File[]\n"
  ++ "            : T[K] extends string\n"
  ++ "              ? File | Blob  // Single file becomes File or Blob\n"
  ++ "              : T[K]\n"
  ++ "          : T[K];  // Non-file fields keep their original type\n"
  ++ "    \x7d\n"
  ++ "  : T;\n"
  ++ "\n"
  ++ "/**\n"
  ++ " * Extracts the request body type for a given path and method directly from OpenAPI spec.\n"
  ++ " * Handles both JSON (application/json) and FormData (multipart/form-data) content types.\n"
  ++ " * For form-data, maps string/string[] types to File/File[] for file upload fields.\n"
  ++ " * Converts Record<string, never> (from generic object schemas) to Record<string, unknown>.\n"
  ++ " */\n"
  ++ "type RequestBody<\n"
  ++ "  P extends keyof paths,\n"
  ++ "  M extends \"get\" | \"post\" | \"put\" | \"delete\" | \"patch\"\n"
  ++ "> = \n"
  ++ "  Operation<P, M> extends \x7b requestBody: \x7b content: \x7b \"application/json\": infer T \x7d \x7d \x7d\n"
  ++ "    ? T extends Record<string, never>\n"
  ++ "      ? Record<string, unknown>\n"
  ++ "      : T\n"
  ++ "    : Operation<P, M> extends \x7b requestBody?: \x7b content: \x7b \"application/json\": infer T \x7d \x7d \x7d\n"
  ++ "    ? T extends Record<string, never>\n"
  ++ "      ? Record<string, unknown>\n"
  ++ "      : T\n"
  ++ "    : Operation<P, M> extends \x7b requestBody: \x7b content: \x7b \"multipart/form-data\": infer T \x7d \x7d \x7d\n"
  ++ "    ? MapFormDataTypes<T>\n"
  ++ "    : Operation<P, M> extends \x7b requestBody?: \x7b content: \x7b \"multipart/form-data\": infer T \x7d \x7d \x7d\n"
  ++ "    ? MapFormDataTypes<T>\n"
  ++ "    : never\n"
  ++ "\n"
  ++ "/**\n"
  ++ " * Extracts the response data type for a given path and method from OpenAPI spec.\n"
  ++ " * Defaults to 200 status code response.\n"
  ++ " */\n"
  ++ "type ResponseData<\n"
  ++ "  P extends keyof paths,\n"
  ++ "  M extends \"get\" | \"post\" | \"put\" | \"delete\" | \"patch\"\n"
  ++ "> = Operation<P, M> extends \x7b\n"
  ++ "  responses: \x7b 200: \x7b content: \x7b \"application/json\": infer T \x7d \x7d \x7d\n"
  ++ "\x7d\n"
  ++ "  ? T\n"
  ++ "  : Operation<P, M> extends \x7b\n"
  ++ "      responses: \x7b 201: \x7b content: \x7b \"application/json\": infer T \x7d \x7d \x7d\n"
  ++ "    \x7d\n"
  ++ "  ? T\n"
  ++ "  : unknown\n"
  ++ "\n"
  ++ "/**\n"
  ++ " * Extracts query parameters for a given path and method from OpenAPI spec.\n"
  ++ " */\n"
  ++ "type QueryParams<\n"
  ++ "  P extends keyof paths,\n"
  ++ "  M extends \"get\" | \"post\" | \"put\" | \"delete\" | \"patch\"\n"
  ++ "> = Operation<P, M> extends \x7b parameters: \x7b query?: infer Q \x7d \x7d\n"
  ++ "  ? Q extends Record<string, unknown>\n"
  ++ "    ? Q\n"
  ++ "    : never\n"
  ++ "  : never\n"
  ++ "\n"
  ++ "/**\n"
  ++ " * Request config with typed query parameters extracted from OpenAPI spec.\n"
  ++ " */\n"
  ++ "type RequestConfig<\n"
  ++ "  P extends keyof paths,\n"
  ++ "  M extends \"get\" | \"post\" | \"put\" | \"delete\" | \"patch\"\n"
  ++ "> = Omit<AxiosRequestConfig, \"params\"> & \x7b\n"
  ++ "  params?: QueryParams<P, M>\n"
  ++ "\x7d\n"
  ++ "\n"
  ++ "/* ~ =================================== ~ */\n"
  ++ "/* -- Generated Operations -- */\n"
  ++ "/* ~ =================================== ~ */\n"
  ++ "\n"
  ++ "/**\n"
  ++ " * Collection of all API operations extracted from the OpenAPI spec.\n"
  ++ " * Each operation is a typed function that wraps the underlying apiClient methods.\n"
  ++ " * \n"
  ++ " * @example\n"
  ++ " * ```typescript\n"
  ++ " * // Using operation-based API\n"
  ++ " * await apiClient.op.getUserById(\x7b id: \"123\" \x7d)\n"
  ++ " * \n"
  ++ " * // With query parameters\n"
  ++ " * await apiClient.op.listUsers(\x7b params: \x7b limit: 10, offset: 0 \x7d \x7d)\n"
  ++ " * \n"
  ++ " * // With request body\n"
  ++ " * await apiClient.op.createUser(\x7b name: \"John\", email: \"john@example.com\" \x7d)\n"
  ++ " * ```\n"
  ++ " */\n"
  ++ "export const createOperations = (apiClient: any) => (\x7b\n"
  ++ ""

/-- The `footer` constant of `generateOperationsFileContent`. -/
def operationsFooter : String :=
  "\x7d) as const\n"
  ++ "\n"
  ++ "/**\n"
  ++ " * Type representing all available API operations.\n"
  ++ " * This type is inferred from the createOperations return value for proper TypeScript support.\n"
  ++ " */\n"
  ++ "export type ApiOperations = ReturnType<typeof createOperations>\n"
  ++ ""

/-- `generateOperationsFileContent` from `generator.ts`, lines 249-406: the
header (with the stamped `new Date().toISOString()` passed in as the
`timestamp` parameter), the rendered operations joined by newlines, and the
footer. -/
def generateOperationsFileContent (timestamp : String)
    (operations : List OperationMetadata) : String :=
  operationsHeaderPre ++ timestamp ++ operationsHeaderMid
    ++ toString operations.length ++ operationsHeaderPost
    ++ String.intercalate "\n" (operations.map (fun op => generateOperationFunction op))
    ++ operationsFooter

/-- The composition the generate pipeline runs: extract, then render with the
wall-clock timestamp observed at render time. -/
def generateFromSpec (spec : Json) (timestamp : String) : Except String String :=
  (parseOperations spec).map (fun ops => generateOperationsFileContent timestamp ops)

/-! ## The validate command (`validate.ts`, `Validate.validateSpec`) -/

/-- A validation issue: severity ("error" or "warning"), location, message. -/
structure ValidationIssue where
  severity : String
  path : String
  message : String
deriving Repr, DecidableEq

/-- The warning message attached to operations lacking an `operationId`. -/
def missingOperationIdMessage : String :=
  "Missing operationId - operation will be skipped during generation"

/-- The per-method checks of `validateSpec`: a falsy operation value is
skipped; otherwise a falsy `operationId` and a falsy `responses` each add a
warning at `/paths<pathKey>/<method>`. -/
def validateMethods (pathKey : String) (pathObj : Json) :
    List String → List ValidationIssue
  | [] => []
  | m :: ms =>
    (match getProp pathObj m with
     | none => []
     | some operation =>
       if ¬ truthy operation then []
       else
         (if ¬ truthyOpt (getProp operation "operationId") then
            [⟨"warning", "/paths" ++ pathKey ++ "/" ++ m, missingOperationIdMessage⟩]
          else [])
         ++ (if ¬ truthyOpt (getProp operation "responses") then
            [⟨"warning", "/paths" ++ pathKey ++ "/" ++ m, "Missing responses definition"⟩]
          else []))
    ++ validateMethods pathKey pathObj ms

/-- The path loop of `validateSpec`: non-object path items (`typeof` not
"object", or `null`) produce an error and are skipped. -/
def validatePathEntries : List (String × Json) → List ValidationIssue
  | [] => []
  | (pathKey, pathItem) :: rest =>
    (match pathItem with
     | .obj _ => validateMethods pathKey pathItem methodList
     | .arr _ => validateMethods pathKey pathItem methodList
     | _ => [⟨"error", "/paths" ++ pathKey, "Path item must be an object"⟩])
    ++ validatePathEntries rest

/-- `Validate.validateSpec` from `src/commands/validate.ts`. -/
def validateSpec (spec : Json) : List ValidationIssue :=
  match spec with
  | .null | .bool _ | .num _ | .str _ =>
    [⟨"error", "/", "Spec must be a valid JSON object"⟩]
  | _ =>
    (if ¬ (truthyOpt (getProp spec "openapi") || truthyOpt (getProp spec "swagger")) then
      [⟨"error", "/", "Missing \x27openapi\x27 or \x27swagger\x27 version field"⟩]
     else [])
    ++ (if ¬ truthyOpt (getProp spec "info") then
      [⟨"error", "/info", "Missing required \x27info\x27 object"⟩]
     else [])
    ++ (match getProp spec "paths" with
      | some paths =>
        if truthy paths then validatePathEntries (jsEntries paths)
        else [⟨"warning", "/paths", "No paths defined in spec"⟩]
      | none => [⟨"warning", "/paths", "No paths defined in spec"⟩])
    ++ (match getProp spec "components" with
      | some components =>
        if truthy components then
          (if ¬ truthyOpt (getProp components "schemas") then
            [⟨"warning", "/components", "No schemas defined in components"⟩]
           else [])
        else []
      | none => [])

/-! ## The diff command (`Diff` class): operation maps and change detection -/

/-- `OperationInfo`, the comparison record declared by the diff command. -/
structure OperationInfo where
  operationId : String
  method : String
  path : String
  hasRequestBody : Bool
  summary : String
deriving Repr, DecidableEq

/-- `Diff.hasChanges`: meaningful difference on exactly the four compared
fields. -/
def hasChanges (a b : OperationInfo) : Bool :=
  a.method != b.method ||
  a.path != b.path ||
  a.hasRequestBody != b.hasRequestBody ||
  a.summary != b.summary

/-- `Map.get`, on an insertion-ordered association list with unique keys. -/
def mapGet (m : List (String × OperationInfo)) (k : String) : Option OperationInfo :=
  (m.find? (fun p => p.1 == k)).map (fun p => p.2)

/-- The classification the diff command computes. -/
structure DiffResult where
  added : List OperationInfo
  removed : List OperationInfo
  modified : List (OperationInfo × OperationInfo)
deriving Repr, DecidableEq

/-- The first loop of `Diff.run`: walk the new operations; an id absent from
the current map is added, a present one is modified when `hasChanges` holds. -/
def diffNewLoop (currentOps : List (String × OperationInfo)) :
    List (String × OperationInfo) → List OperationInfo × List (OperationInfo × OperationInfo)
  | [] => ([], [])
  | (id, newOp) :: rest =>
    let r := diffNewLoop currentOps rest
    match mapGet currentOps id with
    | none => (newOp :: r.1, r.2)
    | some currentOp =>
      if hasChanges currentOp newOp then (r.1, (currentOp, newOp) :: r.2) else r

/-- The second loop of `Diff.run`: walk the current operations; an id absent
from the new map is removed. -/
def diffRemovedLoop (newOps : List (String × OperationInfo)) :
    List (String × OperationInfo) → List OperationInfo
  | [] => []
  | (id, currentOp) :: rest =>
    (if (mapGet newOps id).isNone then [currentOp] else [])
      ++ diffRemovedLoop newOps rest

/-- The diff computation of `Diff.run` over the two operation maps. -/
def diffRun (currentOps newOps : List (String × OperationInfo)) : DiffResult :=
  let r := diffNewLoop currentOps newOps
  { added := r.1, removed := diffRemovedLoop newOps currentOps, modified := r.2 }

/-! ## The diff command extractor: `Diff.extractOperations`

Unlike `parseOperations`, it admits any truthy `operationId`, whose raw value
(`as string` is an unchecked cast) becomes the map key, and it reads no
`parameters`. -/

/-- The record stored by `Diff.extractOperations`; `operationId` and
`summary` hold the raw runtime values the unchecked casts let through. -/
structure DiffOpInfo where
  operationId : Json
  method : String
  path : String
  hasRequestBody : Bool
  summary : Json
deriving Repr

/-- `Map.set` on an insertion-ordered association list: an existing key keeps
its position and key object, a new key is appended. -/
def mapSetD (m : List (Json × DiffOpInfo)) (k : Json) (v : DiffOpInfo) :
    List (Json × DiffOpInfo) :=
  if m.any (fun p => Json.beq p.1 k) then
    m.map (fun p => if Json.beq p.1 k then (p.1, v) else p)
  else m ++ [(k, v)]

/-- One (path, method) step of `Diff.extractOperations`. -/
def extractOpD (pathTemplate method : String) (pathItem : Json) :
    Except String (Option (Json × DiffOpInfo)) := do
  let operationOpt ← readMethodProp pathItem method
  match operationOpt with
  | none => .ok none
  | some operation =>
    if ¬ truthy operation then .ok none
    else
      match getProp operation "operationId" with
      | none => .ok none
      | some idVal =>
        if ¬ truthy idVal then .ok none
        else
          .ok (some (idVal, {
            operationId := idVal
            method := method
            path := pathTemplate
            hasRequestBody := truthyOpt (getProp operation "requestBody")
            summary := jsCoalesce (getProp operation "summary") (.str "") }))

/-- The method loop of `Diff.extractOperations`, threading the map. -/
def extractMethodsD (pathTemplate : String) (pathItem : Json) :
    List String → List (Json × DiffOpInfo) → Except String (List (Json × DiffOpInfo))
  | [], acc => .ok acc
  | m :: ms, acc => do
    let o ← extractOpD pathTemplate m pathItem
    extractMethodsD pathTemplate pathItem ms
      (match o with
       | none => acc
       | some (k, v) => mapSetD acc k v)

/-- The path loop of `Diff.extractOperations`. -/
def extractEntriesD :
    List (String × Json) → List (Json × DiffOpInfo) → Except String (List (Json × DiffOpInfo))
  | [], acc => .ok acc
  | (pathTemplate, pathItem) :: rest, acc => do
    let acc2 ← extractMethodsD pathTemplate pathItem methodList acc
    extractEntriesD rest acc2

/-- `Diff.extractOperations`: the operation map the diff command builds. -/
def extractOperations (spec : Json) : Except String (List (Json × DiffOpInfo)) :=
  match spec with
  | .null | .bool _ | .num _ | .str _ => .ok []
  | _ =>
    match getProp spec "paths" with
    | none => .ok []
    | some paths =>
      if truthy paths then extractEntriesD (jsEntries paths) [] else .ok []

/-! ## The generated error module (`generateErrorFileContent` template)

The template is fixed TypeScript source, so its functions are embedded
directly: `normalizeErrorMessage`, `createApiError` and `safeRequest`. -/

/-- The `.NET` block: `if (e.error) { ... }` — returns a string or falls
through. -/
def errorFieldMsg (e : Json) : Option String :=
  match getProp e "error" with
  | some errVal =>
    if ¬ truthy errVal then none
    else
      match errVal with
      | .str s => some s
      | _ =>
        match getProp errVal "message" with
        | some (.str s) => some s
        | _ => none
  | none => none

/-- The validation block: `if (e.errors) { ... }` — an array yields its first
string or first element message, an object yields `String(...)` of the head
of its first field array. -/
def errorsFieldMsg (e : Json) : Option String :=
  match getProp e "errors" with
  | some errsVal =>
    if ¬ truthy errsVal then none
    else
      match errsVal with
      | .arr [] => none
      | .arr (.str s :: _) => some s
      | .arr (.null :: _) => none
      | .arr (first :: _) =>
        (match getProp first "message" with
         | some (.str s) => some s
         | _ => none)
      | .obj fs =>
        (match fs.head? with
         | some (_, .arr (y :: _)) => some (jsToString y)
         | _ => none)
      | _ => none
  | none => none

/-- The optional-chained `e.detail[0]?.msg` truthiness test and read: a
nullish element yields `undefined`; otherwise the `msg` property is returned
when truthy. -/
def detailElemMsg (x : Json) : Option Json :=
  match x with
  | .null => none
  | v =>
    match getProp v "msg" with
    | none => none
    | some m => if truthy m then some m else none

/-- The FastAPI block: a string `detail` is returned; an array `detail` whose
first element has a truthy `msg` returns that `msg` value verbatim — the one
place the template can return a non-string. -/
def detailMsg (e : Json) : Option Json :=
  match getProp e "detail" with
  | none => none
  | some dv =>
    match dv with
    | .str s => some (.str s)
    | .arr xs =>
      (match xs with
       | [] => none
       | x :: _ => detailElemMsg x)
    | .null => none
    | .bool _ => none
    | .num _ => none
    | .obj _ => none

/-- The `typeof v === "string"` test on a possibly absent value. -/
def stringField (v : Option Json) : Option String :=
  match v with
  | some (.str s) => some s
  | _ => none

/-- The problem-details block: `if (typeof e.title === "string")`. -/
def titleMsg (e : Json) : Option String :=
  stringField (getProp e "title")

/-- `normalizeErrorMessage` from the generated error module: sequential
framework conventions with a constant fallback. Declared `: string` in the
template, but the FastAPI `msg` branch can leak a non-string, hence `Json`. -/
def normalizeErrorMessage (error : Json) : Json :=
  match error with
  | .obj _ | .arr _ =>
    (match stringField (getProp error "message") with
     | some s => .str s
     | none =>
       match errorFieldMsg error with
       | some s => .str s
       | none =>
         match errorsFieldMsg error with
         | some s => .str s
         | none =>
           match detailMsg error with
           | some v => v
           | none =>
             match titleMsg error with
             | some s => .str s
             | none => .str "An unexpected error occurred")
  | _ => .str "An unexpected error occurred"

/-- `SENSITIVE_FIELDS` from the generated error module. -/
def sensitiveFields : List String :=
  ["password", "token", "secret", "authorization", "apikey", "api_key",
   "access_token", "refresh_token"]

/-- `String.prototype.includes`: the needle occurs as a contiguous substring
of the haystack. -/
def jsIncludes (haystack needle : List Char) : Bool :=
  match haystack with
  | [] => needle.isEmpty
  | c :: rest => needle.isPrefixOf (c :: rest) || jsIncludes rest needle

/-- `redactSensitive`: non-objects pass through; a spread copy of an object
masks fields whose lowercased name contains a sensitive substring; an array
spreads into an index-keyed object. -/
def redactSensitive (data : Option Json) : Option Json :=
  match data with
  | some (.obj fs) =>
    some (.obj (fs.map (fun p =>
      if sensitiveFields.any (fun s => jsIncludes (jsToLower p.1).data s.data) then
        (p.1, Json.str "[REDACTED]")
      else p)))
  | some (.arr xs) =>
    some (.obj (((List.range xs.length).zip xs).map (fun p => (toString p.1, p.2))))
  | other => other

/-- The request configuration carried by an `AxiosError`, per the axios
config type: `method` and `url` are strings when present. -/
structure AxiosConfig where
  method : Option String
  url : Option String
  baseURL : Option Json
  params : Option Json
  data : Option Json
deriving Repr

/-- `RequestContext` from the generated error module. -/
structure RequestContext where
  method : String
  url : String
  baseURL : Option Json
  params : Option Json
  data : Option Json
deriving Repr

/-- `extractRequestContext`: optional chaining plus `||` fallbacks. -/
def extractRequestContext (config : Option AxiosConfig) : RequestContext :=
  { method :=
      match config with
      | some c =>
        (match c.method with
         | some s => if jsToUpper s = "" then "UNKNOWN" else jsToUpper s
         | none => "UNKNOWN")
      | none => "UNKNOWN"
    url :=
      match config with
      | some c =>
        (match c.url with
         | some s => if s = "" then "unknown" else s
         | none => "unknown")
      | none => "unknown"
    baseURL := config.bind (fun c => c.baseURL)
    params := config.bind (fun c => c.params)
    data := redactSensitive (config.bind (fun c => c.data)) }

/-- `getErrorCode`: map an HTTP status to an error code string. -/
def getErrorCode (status : Int) : String :=
  if status ≥ 500 then "SERVER_ERROR"
  else if status = 400 then "BAD_REQUEST"
  else if status = 401 then "UNAUTHORIZED"
  else if status = 403 then "FORBIDDEN"
  else if status = 404 then "NOT_FOUND"
  else if status = 409 then "CONFLICT"
  else if status = 422 then "VALIDATION_ERROR"
  else if status = 429 then "RATE_LIMITED"
  else "REQUEST_ERROR"

/-- The `details` field of an `ApiError`: either the response body, the
`(code, message)` record built for network errors, or the original thrown
value. -/
inductive ErrDetails where
  | json (v : Json)
  | netInfo (code : Option String) (message : String)
  | errObj (message : String)
deriving Repr

/-- A value thrown into `safeRequest`: an `AxiosError` (with or without a
response), a plain `Error`, or any other value. -/
inductive JsThrown where
  | axios (config : Option AxiosConfig) (code : Option String) (message : String)
      (response : Option (Int × Json))
  | jsError (message : String)
  | value (v : Json)
deriving Repr

/-- `ApiError` from the generated error module. `message` is declared
`string` but receives `normalizeErrorMessage`, which can leak a non-string. -/
structure ApiError where
  message : Json
  code : String
  status : Option Int
  request : RequestContext
  details : ErrDetails
deriving Repr

/-- `createApiError` from the generated error module. -/
def createApiError : JsThrown → ApiError
  | .axios config code message response =>
    let request := extractRequestContext config
    (match response with
     | none =>
       { message := .str (if code == some "ECONNABORTED" then "Request timed out"
                          else "Network error - please check your connection")
         code := if code == some "ECONNABORTED" then "TIMEOUT" else "NETWORK_ERROR"
         status := none
         request := request
         details := .netInfo code message }
     | some (status, data) =>
       { message := normalizeErrorMessage data
         code := getErrorCode status
         status := some status
         request := request
         details := .json data })
  | .jsError message =>
    { message := .str message
      code := "UNKNOWN_ERROR"
      status := none
      request := { method := "UNKNOWN", url := "unknown", baseURL := none, params := none, data := none }
      details := .errObj message }
  | .value v =>
    { message := .str "An unexpected error occurred"
      code := "UNKNOWN_ERROR"
      status := none
      request := { method := "UNKNOWN", url := "unknown", baseURL := none, params := none, data := none }
      details := .json v }

/-- The settled state of the wrapped axios promise: fulfilled with a response
whose body is `data`, or rejected with a thrown value. -/
inductive PromiseOutcome where
  | resolved (data : Json)
  | rejected (err : JsThrown)
deriving Repr

/-- The `Result` shape of the generated error module: `data` holds the
response body on success and the literal `null` on failure; `error` is the
literal `null` (`none`) on success. -/
structure SafeResult where
  data : Json
  error : Option ApiError
deriving Repr

/-- `safeRequest` from the generated error module. -/
def safeRequest : PromiseOutcome → SafeResult
  | .resolved d => { data := d, error := none }
  | .rejected e => { data := .null, error := some (createApiError e) }

/-! ## Supporting lemmas -/

/-- The guard `typeof spec !== "object" || spec === null` of
`parseOperations`: values that are not objects (`null` included). -/
def specNotAnObject : Json → Bool
  | .null | .bool _ | .num _ | .str _ => true
  | .arr _ | .obj _ => false

/-- A path template assembled from literal/parameter pairs and a trailing
literal: `l1{p1}l2{p2}...ln{pn}tail`. -/
def renderTemplate (parts : List (String × String)) (tail : String) : String :=
  parts.foldr (fun lp acc => lp.1 ++ "\x7b" ++ lp.2 ++ "\x7d" ++ acc) tail

theorem ppGo_append_of_no_open (lit : List Char) (rest : List Char)
    (h : '\x7b' ∉ lit) : ppGo (lit ++ rest) = ppGo rest := by
  induction lit with
  | nil => rfl
  | cons c tl ih =>
    have hc : c ≠ '\x7b' := fun hc => h (hc ▸ List.mem_cons_self c tl)
    have htl : '\x7b' ∉ tl := fun hm => h (List.mem_cons_of_mem c hm)
    rw [List.cons_append, ppGo, if_neg hc]
    exact ih htl

theorem ppGo_of_no_open (l : List Char) (h : '\x7b' ∉ l) : ppGo l = [] := by
  have := ppGo_append_of_no_open l [] h
  rw [List.append_nil] at this
  rw [this]
  rfl

theorem ppName_capture : ∀ (p acc rest : List Char), '\x7d' ∉ p →
    acc.reverse ++ p ≠ [] →
    ppName (p ++ '\x7d' :: rest) acc = String.mk (acc.reverse ++ p) :: ppGo rest := by
  intro p
  induction p with
  | nil =>
    intro acc rest _ hne
    rw [List.nil_append, ppName, if_pos rfl]
    have hacc : acc ≠ [] := by
      intro h0
      apply hne
      rw [h0]
      rfl
    rw [if_neg (by simpa [List.isEmpty_iff] using hacc)]
    rw [List.append_nil]
  | cons d p2 ih =>
    intro acc rest hp hne
    have hd : d ≠ '\x7d' := fun hd => hp (hd ▸ List.mem_cons_self d p2)
    have hp2 : '\x7d' ∉ p2 := fun hm => hp (List.mem_cons_of_mem d hm)
    rw [List.cons_append, ppName, if_neg hd]
    rw [ih (d :: acc) rest hp2 (by simp)]
    congr 1
    · congr 1
      rw [List.reverse_cons, List.append_assoc]
      rfl

theorem ppGo_param (p rest : List Char) (hne : p ≠ []) (hp : '\x7d' ∉ p) :
    ppGo ('\x7b' :: (p ++ '\x7d' :: rest)) = String.mk p :: ppGo rest := by
  rw [ppGo, if_pos rfl]
  rw [ppName_capture p [] rest hp (by simpa using hne)]
  rfl

/-! ## Claim theorems -/

/-- C8: `parseOperations` returns the empty descriptor list, without raising
any error, whenever the spec value is not an object (including `null`) or the
spec object has no `paths` key. -/
theorem c8_parse_empty_on_degenerate_spec (spec : Json)
    (h : specNotAnObject spec = true ∨ getProp spec "paths" = none) :
    parseOperations spec = .ok [] := by
  cases spec with
  | obj fs =>
    rcases h with h | h
    · simp [specNotAnObject] at h
    · simp [parseOperations, h]
  | _ => rfl

/-- Witness for C8 at the concrete inputs `null` and `[]`-free object. -/
theorem c8_witness :
    parseOperations Json.null = .ok [] ∧
    parseOperations (Json.obj [("info", Json.str "x")]) = .ok [] :=
  ⟨c8_parse_empty_on_degenerate_spec Json.null (Or.inl rfl),
   c8_parse_empty_on_degenerate_spec (Json.obj [("info", Json.str "x")]) (Or.inr rfl)⟩

/-- C1: extraction followed by operations-module rendering is deterministic
once the stamped timestamp is ignored: for a fixed spec, the rendered output
factors as a fixed prefix, the timestamp, and a suffix depending only on the
extracted operations, so two runs differ at most in the timestamp bytes. -/
theorem c1_generation_deterministic_modulo_timestamp (spec : Json)
    (ts1 ts2 : String) (ops : List OperationMetadata)
    (h : parseOperations spec = .ok ops) :
    ∃ pre post : String,
      generateFromSpec spec ts1 = .ok (pre ++ ts1 ++ post) ∧
      generateFromSpec spec ts2 = .ok (pre ++ ts2 ++ post) := by
  refine ⟨operationsHeaderPre,
    operationsHeaderMid ++ toString ops.length ++ operationsHeaderPost
      ++ String.intercalate "\n" (ops.map (fun op => generateOperationFunction op))
      ++ operationsFooter, ?_, ?_⟩ <;>
    simp [generateFromSpec, h, generateOperationsFileContent, Except.map, String.append_assoc]

/-- Witness for C1 at the empty spec. -/
theorem c1_witness :
    ∃ pre post : String,
      generateFromSpec Json.null "2024-01-01T00:00:00.000Z" = .ok (pre ++ "2024-01-01T00:00:00.000Z" ++ post) ∧
      generateFromSpec Json.null "2025-06-06T12:00:00.000Z" = .ok (pre ++ "2025-06-06T12:00:00.000Z" ++ post) :=
  c1_generation_deterministic_modulo_timestamp Json.null _ _ [] rfl

/-- C4: for a path template assembled from brace-delimited parameters
`p1 ... pn` in order (literal segments free of opening braces, parameter
names non-empty and free of closing braces), the extracted `pathParams` is
exactly `[p1, ..., pn]`, duplicates preserved, nothing validated. -/
theorem c4_pathParams_roundtrip (parts : List (String × String)) (tail : String)
    (hlit : ∀ lp ∈ parts, '\x7b' ∉ lp.1.data)
    (hpar : ∀ lp ∈ parts, lp.2 ≠ "" ∧ '\x7d' ∉ lp.2.data)
    (htail : '\x7b' ∉ tail.data) :
    extractPathParams (renderTemplate parts tail) = parts.map (fun lp => lp.2) := by
  induction parts with
  | nil =>
    simpa [extractPathParams, renderTemplate] using ppGo_of_no_open tail.data htail
  | cons lp rest ih =>
    obtain ⟨l, p⟩ := lp
    have hl : '\x7b' ∉ l.data := hlit (l, p) (List.mem_cons_self _ _)
    have hpne : p ≠ "" := (hpar (l, p) (List.mem_cons_self _ _)).1
    have hpd : '\x7d' ∉ p.data := (hpar (l, p) (List.mem_cons_self _ _)).2
    have hlit' : ∀ q ∈ rest, '\x7b' ∉ q.1.data := fun q hq => hlit q (List.mem_cons_of_mem _ hq)
    have hpar' : ∀ q ∈ rest, q.2 ≠ "" ∧ '\x7d' ∉ q.2.data := fun q hq => hpar q (List.mem_cons_of_mem _ hq)
    have hdata : p.data ≠ [] := by
      intro hd
      exact hpne (by cases p with | mk d => simpa using congrArg String.mk hd)
    calc extractPathParams (renderTemplate ((l, p) :: rest) tail)
        = ppGo (l.data ++ ('\x7b' :: (p.data ++ '\x7d' :: (renderTemplate rest tail).data))) := by
          simp [extractPathParams, renderTemplate, String.data_append]
      _ = ppGo ('\x7b' :: (p.data ++ '\x7d' :: (renderTemplate rest tail).data)) :=
          ppGo_append_of_no_open _ _ hl
      _ = String.mk p.data :: ppGo (renderTemplate rest tail).data :=
          ppGo_param _ _ hdata hpd
      _ = p :: extractPathParams (renderTemplate rest tail) := rfl
      _ = p :: rest.map (fun q => q.2) := by rw [ih hlit' hpar']
      _ = ((l, p) :: rest).map (fun q => q.2) := rfl

/-- Witness for C4: `/users/{id}/posts/{id}` extracts `["id", "id"]`. -/
theorem c4_witness :
    extractPathParams (renderTemplate [("/users/", "id"), ("/posts/", "id")] "") = ["id", "id"] := by
  have := c4_pathParams_roundtrip [("/users/", "id"), ("/posts/", "id")] ""
    (by decide) (by decide) (by decide)
  simpa using this

theorem char_toNat_ofNat {n : Nat} (h : n < 55296) : (Char.ofNat n).toNat = n := by
  rw [Char.ofNat, dif_pos (Or.inl h)]
  rfl

theorem toUpper_toNat_of_lower (c : Char) (h1 : 97 ≤ c.toNat) (h2 : c.toNat ≤ 122) :
    (c.toUpper).toNat = c.toNat - 32 := by
  simp only [Char.toUpper]
  rw [if_pos ⟨h1, h2⟩]
  exact char_toNat_ofNat (by omega)

theorem ne_of_toNat_ne {a b : Char} (h : a.toNat ≠ b.toNat) : a ≠ b :=
  fun he => h (congrArg Char.toNat he)

theorem toUpper_not_special (c : Char) (h1 : 97 ≤ c.toNat) (h2 : c.toNat ≤ 122) :
    c.toUpper ≠ '-' ∧ c.toUpper ≠ '_' ∧ ¬ (97 ≤ (c.toUpper).toNat ∧ (c.toUpper).toNat ≤ 122) := by
  have hup := toUpper_toNat_of_lower c h1 h2
  refine ⟨ne_of_toNat_ne ?_, ne_of_toNat_ne ?_, ?_⟩
  · show c.toUpper.toNat ≠ (45 : Nat)
    omega
  · show c.toUpper.toNat ≠ (95 : Nat)
    omega
  · omega

theorem camelChars_cons_of_plain (x : Char) (l : List Char)
    (h1 : x ≠ '-') (h2 : x ≠ '_') : camelChars (x :: l) = x :: camelChars l := by
  cases l with
  | nil => rfl
  | cons y t =>
    rw [camelChars, if_neg]
    intro hcond
    rcases hcond.1 with h | h
    · exact h1 h
    · exact h2 h

theorem camelChars_head_cases (d : Char) (rest : List Char) :
    (∃ t, camelChars (d :: rest) = d :: t) ∨
    (∃ (e : Char) (t : List Char), 97 ≤ e.toNat ∧ e.toNat ≤ 122 ∧
      camelChars (d :: rest) = e.toUpper :: t) := by
  cases rest with
  | nil => exact Or.inl ⟨[], rfl⟩
  | cons e t =>
    by_cases hcond : (d = '-' ∨ d = '_') ∧ (97 ≤ e.toNat ∧ e.toNat ≤ 122)
    · right
      exact ⟨e, camelChars t, hcond.2.1, hcond.2.2, by rw [camelChars, if_pos hcond]⟩
    · left
      exact ⟨camelChars (e :: t), by rw [camelChars, if_neg hcond]⟩

theorem camelChars_idem (l : List Char) : camelChars (camelChars l) = camelChars l := by
  induction l using camelChars.induct with
  | case1 => rfl
  | case2 c => rfl
  | case3 c d rest hcond ih =>
    rw [camelChars, if_pos hcond]
    obtain ⟨hlo, hhi⟩ := hcond.2
    obtain ⟨hdash, hund, _⟩ := toUpper_not_special d hlo hhi
    rw [camelChars_cons_of_plain _ _ hdash hund, ih]
  | case4 c d rest hcond ih =>
    rw [camelChars, if_neg hcond]
    by_cases hc : c = '-' ∨ c = '_'
    · have hd : ¬ (97 ≤ d.toNat ∧ d.toNat ≤ 122) := fun hdl => hcond ⟨hc, hdl⟩
      rcases camelChars_head_cases d rest with ⟨t, ht⟩ | ⟨e, t, helo, hehi, ht⟩
      · rw [ht] at ih ⊢
        cases t with
        | nil =>
          rw [camelChars, if_neg]
          · rw [show camelChars [d] = [d] from rfl]
          · intro hfull; exact hd hfull.2
        | cons y s =>
          rw [camelChars, if_neg]
          · rw [ih]
          · intro hfull; exact hd hfull.2
      · rw [ht] at ih ⊢
        obtain ⟨_, _, hnl⟩ := toUpper_not_special e helo hehi
        cases t with
        | nil =>
          rw [camelChars, if_neg]
          · rw [show camelChars [e.toUpper] = [e.toUpper] from rfl]
          · intro hfull; exact hnl hfull.2
        | cons y s =>
          rw [camelChars, if_neg]
          · rw [ih]
          · intro hfull; exact hnl hfull.2
    · have h1 : c ≠ '-' := fun he => hc (Or.inl he)
      have h2 : c ≠ '_' := fun he => hc (Or.inr he)
      rw [camelChars_cons_of_plain _ _ h1 h2, ih]

/-- C5: `toCamelCase` uppercases exactly the occurrences of `-` or `_`
followed by a lowercase letter (dropping the separator), leaves every other
character in place, and is idempotent. -/
theorem c5_toCamelCase_spec :
    (∀ (c d : Char) (rest : List Char),
        (c = '-' ∨ c = '_') → 97 ≤ d.toNat → d.toNat ≤ 122 →
        camelChars (c :: d :: rest) = d.toUpper :: camelChars rest) ∧
    (∀ (c : Char) (rest : List Char),
        (∀ d rest2, rest = d :: rest2 → ¬ ((c = '-' ∨ c = '_') ∧ 97 ≤ d.toNat ∧ d.toNat ≤ 122)) →
        camelChars (c :: rest) = c :: camelChars rest) ∧
    (∀ s : String, toCamelCase (toCamelCase s) = toCamelCase s) := by
  refine ⟨?_, ?_, ?_⟩
  · intro c d rest hc h1 h2
    rw [camelChars, if_pos ⟨hc, h1, h2⟩]
  · intro c rest hnot
    cases rest with
    | nil => rfl
    | cons d rest2 =>
      rw [camelChars, if_neg]
      intro hcond
      exact hnot d rest2 rfl ⟨hcond.1, hcond.2⟩
  · intro s
    show String.mk (camelChars (String.mk (camelChars s.data)).data) = String.mk (camelChars s.data)
    rw [show (String.mk (camelChars s.data)).data = camelChars s.data from rfl]
    rw [camelChars_idem]

/-- Witness for C5 at concrete inputs. -/
theorem c5_witness :
    camelChars ('_' :: 'a' :: []) = 'a'.toUpper :: camelChars [] ∧
    camelChars ('x' :: 'a' :: []) = 'x' :: camelChars ('a' :: []) ∧
    toCamelCase (toCamelCase "user_id-x") = toCamelCase "user_id-x" :=
  ⟨c5_toCamelCase_spec.1 '_' 'a' [] (Or.inr rfl) (by decide) (by decide),
   c5_toCamelCase_spec.2.1 'x' ('a' :: [])
     (by intro d rest2 he; cases he; decide),
   c5_toCamelCase_spec.2.2 "user_id-x"⟩

/-- A `get` descriptor whose operation object carried a truthy
`requestBody`, as `parseOperations` produces for any method. -/
def c7GetWithBody : OperationMetadata :=
  { operationId := "getA", method := "get", path := "/a", pathParams := [],
    hasRequestBody := true, hasQueryParams := false,
    summary := .str "", description := .str "" }

/-- C7 counterexample: the claimed decision-table row "get/delete render
call(path, pathParams?, config)" fails — a `get` descriptor with
`hasRequestBody` renders the `data` argument, because the branch is taken on
`hasRequestBody` first, not on the method. -/
theorem c7_counterexample :
    buildApiCall (jsToLower c7GetWithBody.method) c7GetWithBody.path
      c7GetWithBody.hasRequestBody (c7GetWithBody.pathParams.length > 0)
      = "apiClient.get(\"/a\", data, config)" ∧
    "apiClient.get(\"/a\", data, config)" ≠ "apiClient.get(\"/a\", config)" := by
  constructor
  · rfl
  · decide

/-- C7 amended: the transport call is decided on `hasRequestBody` first —
any method with a body passes `data`; without a body, `patch` fills the data
slot with an explicit `undefined` before the path-params argument; every
other method without a body omits the slot. The rendered operation ends with
this call. -/
theorem c7_call_shape (op : OperationMetadata) :
    (∃ pre : String, generateOperationFunction op =
      pre ++ " => " ++
        buildApiCall (jsToLower op.method) op.path op.hasRequestBody (op.pathParams.length > 0)
        ++ ",\n") ∧
    (op.hasRequestBody = true → op.pathParams.length > 0 →
      buildApiCall (jsToLower op.method) op.path op.hasRequestBody (op.pathParams.length > 0) =
        "apiClient." ++ jsToLower op.method ++ "(\"" ++ op.path ++ "\", data, pathParams, config)") ∧
    (op.hasRequestBody = true → op.pathParams.length = 0 →
      buildApiCall (jsToLower op.method) op.path op.hasRequestBody (op.pathParams.length > 0) =
        "apiClient." ++ jsToLower op.method ++ "(\"" ++ op.path ++ "\", data, config)") ∧
    (op.hasRequestBody = false → jsToLower op.method = "patch" → op.pathParams.length > 0 →
      buildApiCall (jsToLower op.method) op.path op.hasRequestBody (op.pathParams.length > 0) =
        "apiClient." ++ jsToLower op.method ++ "(\"" ++ op.path ++ "\", undefined, pathParams, config)") ∧
    (op.hasRequestBody = false → jsToLower op.method = "patch" → op.pathParams.length = 0 →
      buildApiCall (jsToLower op.method) op.path op.hasRequestBody (op.pathParams.length > 0) =
        "apiClient." ++ jsToLower op.method ++ "(\"" ++ op.path ++ "\", undefined, config)") ∧
    (op.hasRequestBody = false → jsToLower op.method ≠ "patch" → op.pathParams.length > 0 →
      buildApiCall (jsToLower op.method) op.path op.hasRequestBody (op.pathParams.length > 0) =
        "apiClient." ++ jsToLower op.method ++ "(\"" ++ op.path ++ "\", pathParams, config)") ∧
    (op.hasRequestBody = false → jsToLower op.method ≠ "patch" → op.pathParams.length = 0 →
      buildApiCall (jsToLower op.method) op.path op.hasRequestBody (op.pathParams.length > 0) =
        "apiClient." ++ jsToLower op.method ++ "(\"" ++ op.path ++ "\", config)") := by
  refine ⟨⟨_, rfl⟩, ?_, ?_, ?_, ?_, ?_, ?_⟩ <;> intro hb
  · intro hp; simp [buildApiCall, hb, hp]
  · intro hp; simp [buildApiCall, hb, hp]
  · intro hm hp; simp [buildApiCall, hb, hm, hp]
  · intro hm hp; simp [buildApiCall, hb, hm, hp]
  · intro hm hp; simp [buildApiCall, hb, hm, hp]
  · intro hm hp; simp [buildApiCall, hb, hm, hp]

/-- A body-less `patch` descriptor with one path parameter. -/
def patchNoBodyOp : OperationMetadata :=
  { operationId := "x", method := "patch", path := "/a/\x7bid\x7d",
    pathParams := ["id"], hasRequestBody := false, hasQueryParams := false,
    summary := .str "", description := .str "" }

/-- Witness for C7 at a body-less `patch` with one path parameter. -/
theorem c7_witness :
    buildApiCall (jsToLower patchNoBodyOp.method) patchNoBodyOp.path
      patchNoBodyOp.hasRequestBody (patchNoBodyOp.pathParams.length > 0) =
      "apiClient." ++ jsToLower patchNoBodyOp.method ++ "(\"" ++ patchNoBodyOp.path
        ++ "\", undefined, pathParams, config)" :=
  (c7_call_shape patchNoBodyOp).2.2.2.1 rfl rfl (by decide)

/-- The C2 counterexample spec: one well-identified `get` operation whose
`parameters` value is the number `42`. -/
def c2Spec : Json :=
  .obj [("paths", .obj [("/a", .obj [("get", .obj
    [("operationId", .str "getA"), ("parameters", .num 42)])])])]

/-- C2 counterexample: extraction does not complete — the truthy non-array
`parameters` reaches `.some` and raises a `TypeError` that aborts the whole
extraction, rather than skipping the single operation. -/
theorem c2_counterexample :
    parseOperations c2Spec = .error "TypeError: parameters.some is not a function" := by
  rfl

/-- Does the operation object avoid the one per-operation shape that aborts
extraction: a truthy non-array `parameters`, or an array holding `null`? -/
def paramsFieldOk (operation : Json) : Bool :=
  match getProp operation "parameters" with
  | none => true
  | some .null => true
  | some (.arr xs) => xs.all (fun x => match x with | .null => false | _ => true)
  | some _ => false

/-- The per-(item, method) safety condition for `parseOperations`. -/
def operationEntryOk (item : Json) (m : String) : Bool :=
  match getProp item m with
  | none => true
  | some operation => ! truthy operation || paramsFieldOk operation

/-- The per-path-item safety condition: the item is not `null` (a null item
makes `pathItem[method]` itself throw) and every method entry is safe. -/
def pathItemOk (item : Json) : Bool :=
  !(Json.beq item .null) && methodList.all (fun m => operationEntryOk item m)

/-- The whole-spec safety condition for `parseOperations`. -/
def specParamsOk (spec : Json) : Bool :=
  (specPathEntries spec).all (fun e => pathItemOk e.2)

theorem jsSomeQuery_ok (xs : List Json)
    (h : ∀ x ∈ xs, (match x with | Json.null => false | _ => true) = true) :
    ∃ b, jsSomeQuery xs = .ok b := by
  induction xs with
  | nil => exact ⟨false, rfl⟩
  | cons x rest ih =>
    have hx := h x (List.mem_cons_self _ _)
    have hrest : ∀ y ∈ rest, (match y with | Json.null => false | _ => true) = true :=
      fun y hy => h y (List.mem_cons_of_mem _ hy)
    obtain ⟨b, hb⟩ := ih hrest
    cases x with
    | null => simp at hx
    | bool v => by_cases hq : (getProp (.bool v) "in" == some (.str "query")) = true <;>
        simp [jsSomeQuery, hq, hb]
    | num v => by_cases hq : (getProp (.num v) "in" == some (.str "query")) = true <;>
        simp [jsSomeQuery, hq, hb]
    | str v => by_cases hq : (getProp (.str v) "in" == some (.str "query")) = true <;>
        simp [jsSomeQuery, hq, hb]
    | arr v => by_cases hq : (getProp (.arr v) "in" == some (.str "query")) = true <;>
        simp [jsSomeQuery, hq, hb]
    | obj v => by_cases hq : (getProp (.obj v) "in" == some (.str "query")) = true <;>
        simp [jsSomeQuery, hq, hb]

theorem hasQueryParamsOf_ok (operation : Json) (h : paramsFieldOk operation = true) :
    ∃ b, hasQueryParamsOf (getProp operation "parameters") = .ok b := by
  rw [paramsFieldOk] at h
  cases hg : getProp operation "parameters" with
  | none => exact ⟨false, rfl⟩
  | some v =>
    rw [hg] at h
    cases v with
    | null => exact ⟨false, rfl⟩
    | arr xs =>
      simp only [List.all_eq_true] at h
      exact jsSomeQuery_ok xs h
    | bool b => simp at h
    | num n => simp at h
    | str s => simp at h
    | obj fs => simp at h

theorem parseOp_ok (p m : String) (item : Json)
    (hitem : item ≠ .null) (hop : operationEntryOk item m = true) :
    ∃ o, parseOp p m item = .ok o := by
  have hread : readMethodProp item m = .ok (getProp item m) := by
    cases item <;> first | exact absurd rfl hitem | rfl
  rw [parseOp, hread]
  show ∃ o, (match getProp item m with
    | none => Except.ok none
    | some operation => _) = Except.ok o
  rw [operationEntryOk] at hop
  cases hg : getProp item m with
  | none => exact ⟨none, rfl⟩
  | some operation =>
    rw [hg] at hop
    by_cases ht : truthy operation
    · have hpar : paramsFieldOk operation = true := by
        rcases Bool.or_eq_true_iff.mp hop with hcase | hcase
        · simp [ht] at hcase
        · exact hcase
      simp only [ht, not_true_eq_false, if_false]
      cases hic : extractorOpId (getProp operation "operationId") with
      | none => exact ⟨none, by simp⟩
      | some s =>
        obtain ⟨b, hb⟩ := hasQueryParamsOf_ok operation hpar
        exact ⟨some ⟨s, m, p, extractPathParams p,
          truthyOpt (getProp operation "requestBody"), b,
          jsCoalesce (getProp operation "summary") (Json.str ""),
          jsCoalesce (getProp operation "description") (Json.str "")⟩,
          by simp [hb]; rfl⟩
    · exact ⟨none, by simp [ht]⟩

theorem parseMethods_ok (p : String) (item : Json) (ms : List String)
    (hitem : item ≠ .null) (hok : ∀ m ∈ ms, operationEntryOk item m = true) :
    ∃ l, parseMethods p item ms = .ok l := by
  induction ms with
  | nil => exact ⟨[], rfl⟩
  | cons m rest ih =>
    obtain ⟨o, ho⟩ := parseOp_ok p m item hitem (hok m (List.mem_cons_self _ _))
    obtain ⟨l, hl⟩ := ih (fun m' hm' => hok m' (List.mem_cons_of_mem _ hm'))
    cases o with
    | none => exact ⟨l, by rw [parseMethods, ho, hl]; rfl⟩
    | some meta => exact ⟨meta :: l, by rw [parseMethods, ho, hl]; rfl⟩


theorem parseEntries_ok (entries : List (String × Json))
    (h : ∀ e ∈ entries, pathItemOk e.2 = true) :
    ∃ l, parseEntries entries = .ok l := by
  induction entries with
  | nil => exact ⟨[], rfl⟩
  | cons e rest ih =>
    obtain ⟨p, item⟩ := e
    have he := h (p, item) (List.mem_cons_self _ _)
    rw [pathItemOk, Bool.and_eq_true] at he
    have hitem : item ≠ .null := by
      intro hn
      subst hn
      have := he.1
      simp [Json.beq] at this
    have hms : ∀ m ∈ methodList, operationEntryOk item m = true := by
      have := he.2
      simpa [List.all_eq_true] using this
    obtain ⟨l1, hl1⟩ := parseMethods_ok p item methodList hitem hms
    obtain ⟨l2, hl2⟩ := ih (fun e' he' => h e' (List.mem_cons_of_mem _ he'))
    exact ⟨l1 ++ l2, by rw [parseEntries, hl1, hl2]; rfl⟩

/-- C2 amended: extraction completes over the whole spec — malformed
`operationId`, `summary`, `description` or `requestBody` degrade to a skip or
a harmless value — except for one malformation class: a truthy non-array
`parameters` (or an array with a `null` element, or a `null` path item),
which raises a `TypeError` that aborts the whole extraction. -/
theorem c2_extraction_completes (spec : Json) (h : specParamsOk spec = true) :
    ∃ ops, parseOperations spec = .ok ops := by
  rw [parseOperations_eq_parseEntries]
  apply parseEntries_ok
  intro e he
  rw [specParamsOk, List.all_eq_true] at h
  exact h e he

/-- Witness for C2 amended: a spec with a skipped operation (no
`operationId`), a malformed summary, and a well-formed `parameters` array. -/
theorem c2_witness :
    ∃ ops, parseOperations (Json.obj [("paths", Json.obj [("/a", Json.obj
      [("get", Json.obj [("summary", Json.num 7)]),
       ("post", Json.obj [("operationId", Json.str "mk"),
                          ("parameters", Json.arr [Json.obj [("in", Json.str "query")]])])])])])
      = .ok ops :=
  c2_extraction_completes _ (by decide)

/-- The C3 counterexample spec: one operation with the truthy non-string
`operationId` value `42`. -/
def c3Spec : Json :=
  .obj [("paths", .obj [("/a", .obj [("get", .obj [("operationId", .num 42)])])])]

/-- The warning issue the validator reports for a missing `operationId`. -/
def missingOpIdWarning (p m : String) : ValidationIssue :=
  ⟨"warning", "/paths" ++ p ++ "/" ++ m, missingOperationIdMessage⟩

/-- C3 counterexample: on `operationId: 42` the extractor produces no
descriptor, yet the validator reports no missing-operationId warning
anywhere — the two rules disagree, refuting the claimed equivalence. -/
theorem c3_counterexample :
    parseOperations c3Spec = .ok [] ∧
    (validateSpec c3Spec).all (fun i => i.message != missingOperationIdMessage) = true :=
  ⟨rfl, rfl⟩

theorem append_slash_inj : ∀ (a b xs ys : List Char), '/' ∉ a → '/' ∉ b →
    a ++ '/' :: xs = b ++ '/' :: ys → a = b ∧ xs = ys := by
  intro a
  induction a with
  | nil =>
    intro b xs ys _ hb h
    cases b with
    | nil => simpa using h
    | cons d b' =>
      simp only [List.nil_append, List.cons_append, List.cons.injEq] at h
      exact absurd (h.1 ▸ List.mem_cons_self d b') (fun hm => hb (h.1 ▸ hm))
  | cons c a' ih =>
    intro b xs ys ha hb h
    cases b with
    | nil =>
      simp only [List.nil_append, List.cons_append, List.cons.injEq] at h
      exact absurd (h.1 ▸ List.mem_cons_self c a') (fun hm => ha (h.1 ▸ hm))
    | cons d b' =>
      simp only [List.cons_append, List.cons.injEq] at h
      have ha' : '/' ∉ a' := fun hm => ha (List.mem_cons_of_mem c hm)
      have hb' : '/' ∉ b' := fun hm => hb (List.mem_cons_of_mem d hm)
      obtain ⟨h1, h2⟩ := ih b' xs ys ha' hb' h.2
      exact ⟨by rw [h.1, h1], h2⟩

theorem issuePath_inj (p q m m' : String) (hm : '/' ∉ m.data) (hm' : '/' ∉ m'.data)
    (h : "/paths" ++ p ++ "/" ++ m = "/paths" ++ q ++ "/" ++ m') : p = q ∧ m = m' := by
  have hd : (("/paths".data ++ p.data) ++ '/' :: m.data)
      = (("/paths".data ++ q.data) ++ '/' :: m'.data) := by
    have := congrArg String.data h
    simpa [String.data_append, List.append_assoc] using this
  have hrev : m.data.reverse ++ '/' :: ("/paths".data ++ p.data).reverse
      = m'.data.reverse ++ '/' :: ("/paths".data ++ q.data).reverse := by
    have := congrArg List.reverse hd
    simpa [List.reverse_append] using this
  have hmrev : '/' ∉ m.data.reverse := fun hx => hm (List.mem_reverse.mp hx)
  have hmrev' : '/' ∉ m'.data.reverse := fun hx => hm' (List.mem_reverse.mp hx)
  obtain ⟨h1, h2⟩ := append_slash_inj _ _ _ _ hmrev hmrev' hrev
  have hmm : m.data = m'.data := by
    have := congrArg List.reverse h1
    simpa using this
  have hpq : p.data = q.data := by
    have h3 : "/paths".data ++ p.data = "/paths".data ++ q.data := by
      have := congrArg List.reverse h2
      simpa using this
    exact List.append_cancel_left h3
  constructor
  · calc p = String.mk p.data := rfl
      _ = String.mk q.data := by rw [hpq]
      _ = q := rfl
  · calc m = String.mk m.data := rfl
      _ = String.mk m'.data := by rw [hmm]
      _ = m' := rfl

theorem methodList_no_slash (m : String) (hm : m ∈ methodList) : '/' ∉ m.data := by
  simp only [methodList, List.mem_cons, List.not_mem_nil, or_false] at hm
  rcases hm with rfl | rfl | rfl | rfl | rfl <;> decide

theorem validateMethods_missing_mem (pk : String) (item : Json) (ms : List String)
    (p m : String) (hw : missingOpIdWarning p m ∈ validateMethods pk item ms) :
    ∃ m' ∈ ms, "/paths" ++ p ++ "/" ++ m = "/paths" ++ pk ++ "/" ++ m' ∧
      ∃ op, getProp item m' = some op ∧ truthy op = true ∧
        truthyOpt (getProp op "operationId") = false := by
  induction ms with
  | nil => simp [validateMethods] at hw
  | cons m0 rest ih =>
    rw [validateMethods, List.mem_append] at hw
    rcases hw with hw | hw
    · cases hg : getProp item m0 with
      | none => simp [hg] at hw
      | some op =>
        simp only [hg] at hw
        by_cases ht : truthy op
        · rw [if_neg (by simp [ht])] at hw
          rw [List.mem_append] at hw
          rcases hw with hw | hw
          · by_cases hid : truthyOpt (getProp op "operationId")
            · rw [if_neg (by simp [hid])] at hw
              simp at hw
            · rw [if_pos (by simp [hid])] at hw
              simp only [List.mem_singleton] at hw
              have hpath : "/paths" ++ p ++ "/" ++ m = "/paths" ++ pk ++ "/" ++ m0 := by
                have := congrArg ValidationIssue.path hw
                simpa [missingOpIdWarning] using this
              exact ⟨m0, List.mem_cons_self _ _, hpath,
                op, hg, ht ▸ rfl, by simpa using hid⟩
          · by_cases hre : truthyOpt (getProp op "responses")
            · rw [if_neg (by simp [hre])] at hw
              simp at hw
            · rw [if_pos (by simp [hre])] at hw
              simp only [List.mem_singleton] at hw
              have := congrArg ValidationIssue.message hw
              simp [missingOpIdWarning, missingOperationIdMessage] at this
        · rw [if_pos (by simp [ht])] at hw
          simp at hw
    · obtain ⟨m', hmem, hrest⟩ := ih hw
      exact ⟨m', List.mem_cons_of_mem _ hmem, hrest⟩

theorem validatePathEntries_missing_mem (entries : List (String × Json)) (p m : String)
    (hw : missingOpIdWarning p m ∈ validatePathEntries entries) :
    ∃ pk item, (pk, item) ∈ entries ∧
      missingOpIdWarning p m ∈ validateMethods pk item methodList := by
  induction entries with
  | nil => simp [validatePathEntries] at hw
  | cons e rest ih =>
    obtain ⟨pk, item⟩ := e
    cases item with
    | obj fs =>
      simp only [validatePathEntries, List.mem_append] at hw
      rcases hw with hw | hw
      · exact ⟨pk, .obj fs, List.mem_cons_self _ _, hw⟩
      · obtain ⟨pk2, item2, hmem, h2⟩ := ih hw
        exact ⟨pk2, item2, List.mem_cons_of_mem _ hmem, h2⟩
    | arr xs =>
      simp only [validatePathEntries, List.mem_append] at hw
      rcases hw with hw | hw
      · exact ⟨pk, .arr xs, List.mem_cons_self _ _, hw⟩
      · obtain ⟨pk2, item2, hmem, h2⟩ := ih hw
        exact ⟨pk2, item2, List.mem_cons_of_mem _ hmem, h2⟩
    | null =>
      simp only [validatePathEntries, List.mem_append] at hw
      rcases hw with hw | hw
      · exact absurd (show missingOperationIdMessage = "Path item must be an object" from
          congrArg ValidationIssue.message (List.mem_singleton.mp hw)) (by decide)
      · obtain ⟨pk2, item2, hmem, h2⟩ := ih hw
        exact ⟨pk2, item2, List.mem_cons_of_mem _ hmem, h2⟩
    | bool b =>
      simp only [validatePathEntries, List.mem_append] at hw
      rcases hw with hw | hw
      · exact absurd (show missingOperationIdMessage = "Path item must be an object" from
          congrArg ValidationIssue.message (List.mem_singleton.mp hw)) (by decide)
      · obtain ⟨pk2, item2, hmem, h2⟩ := ih hw
        exact ⟨pk2, item2, List.mem_cons_of_mem _ hmem, h2⟩
    | num n =>
      simp only [validatePathEntries, List.mem_append] at hw
      rcases hw with hw | hw
      · exact absurd (show missingOperationIdMessage = "Path item must be an object" from
          congrArg ValidationIssue.message (List.mem_singleton.mp hw)) (by decide)
      · obtain ⟨pk2, item2, hmem, h2⟩ := ih hw
        exact ⟨pk2, item2, List.mem_cons_of_mem _ hmem, h2⟩
    | str s =>
      simp only [validatePathEntries, List.mem_append] at hw
      rcases hw with hw | hw
      · exact absurd (show missingOperationIdMessage = "Path item must be an object" from
          congrArg ValidationIssue.message (List.mem_singleton.mp hw)) (by decide)
      · obtain ⟨pk2, item2, hmem, h2⟩ := ih hw
        exact ⟨pk2, item2, List.mem_cons_of_mem _ hmem, h2⟩

theorem validateSpec_missing_mem (spec : Json) (p m : String)
    (hw : missingOpIdWarning p m ∈ validateSpec spec) :
    missingOpIdWarning p m ∈ validatePathEntries (specPathEntries spec) := by
  cases spec with
  | null =>
    exact absurd (show missingOperationIdMessage = "Spec must be a valid JSON object" from
      congrArg ValidationIssue.message (List.mem_singleton.mp hw)) (by decide)
  | bool b =>
    exact absurd (show missingOperationIdMessage = "Spec must be a valid JSON object" from
      congrArg ValidationIssue.message (List.mem_singleton.mp hw)) (by decide)
  | num n =>
    exact absurd (show missingOperationIdMessage = "Spec must be a valid JSON object" from
      congrArg ValidationIssue.message (List.mem_singleton.mp hw)) (by decide)
  | str s =>
    exact absurd (show missingOperationIdMessage = "Spec must be a valid JSON object" from
      congrArg ValidationIssue.message (List.mem_singleton.mp hw)) (by decide)
  | arr xs =>
    rw [show validateSpec (.arr xs) =
      [⟨"error", "/", "Missing \x27openapi\x27 or \x27swagger\x27 version field"⟩,
       ⟨"error", "/info", "Missing required \x27info\x27 object"⟩,
       ⟨"warning", "/paths", "No paths defined in spec"⟩] from rfl] at hw
    simp only [List.mem_cons, List.not_mem_nil, or_false] at hw
    rcases hw with hw | hw | hw
    · exact absurd (show missingOperationIdMessage =
        "Missing \x27openapi\x27 or \x27swagger\x27 version field" from
        congrArg ValidationIssue.message hw) (by decide)
    · exact absurd (show missingOperationIdMessage = "Missing required \x27info\x27 object" from
        congrArg ValidationIssue.message hw) (by decide)
    · exact absurd (show missingOperationIdMessage = "No paths defined in spec" from
        congrArg ValidationIssue.message hw) (by decide)
  | obj fs =>
    have hv : validateSpec (Json.obj fs)
        = (if ¬ (truthyOpt (getProp (Json.obj fs) "openapi")
              || truthyOpt (getProp (Json.obj fs) "swagger")) then
            [⟨"error", "/", "Missing \x27openapi\x27 or \x27swagger\x27 version field"⟩]
           else [])
          ++ (if ¬ truthyOpt (getProp (Json.obj fs) "info") then
            [⟨"error", "/info", "Missing required \x27info\x27 object"⟩]
           else [])
          ++ (match getProp (Json.obj fs) "paths" with
            | some paths =>
              if truthy paths then validatePathEntries (jsEntries paths)
              else [⟨"warning", "/paths", "No paths defined in spec"⟩]
            | none => [⟨"warning", "/paths", "No paths defined in spec"⟩])
          ++ (match getProp (Json.obj fs) "components" with
            | some components =>
              if truthy components then
                (if ¬ truthyOpt (getProp components "schemas") then
                  [⟨"warning", "/components", "No schemas defined in components"⟩]
                 else [])
              else []
            | none => []) := rfl
    rw [hv] at hw
    rw [List.mem_append, List.mem_append, List.mem_append] at hw
    rcases hw with ((hw | hw) | hw) | hw
    · split at hw
      · exact absurd (show missingOperationIdMessage =
          "Missing \x27openapi\x27 or \x27swagger\x27 version field" from
          congrArg ValidationIssue.message (List.mem_singleton.mp hw)) (by decide)
      · simp at hw
    · split at hw
      · exact absurd (show missingOperationIdMessage = "Missing required \x27info\x27 object" from
          congrArg ValidationIssue.message (List.mem_singleton.mp hw)) (by decide)
      · simp at hw
    · split at hw
      · rename_i paths heq
        split at hw
        · rename_i hp
          have hsp : specPathEntries (.obj fs) = jsEntries paths := by
            have h1 : specPathEntries (.obj fs)
                = (match getProp (Json.obj fs) "paths" with
                   | none => []
                   | some ps => if truthy ps then jsEntries ps else []) := rfl
            rw [h1, heq]
            show (if truthy paths = true then jsEntries paths else []) = jsEntries paths
            rw [if_pos hp]
          rw [hsp]
          exact hw
        · exact absurd (show missingOperationIdMessage = "No paths defined in spec" from
            congrArg ValidationIssue.message (List.mem_singleton.mp hw)) (by decide)
      · exact absurd (show missingOperationIdMessage = "No paths defined in spec" from
          congrArg ValidationIssue.message (List.mem_singleton.mp hw)) (by decide)
    · split at hw
      · split at hw
        · split at hw
          · exact absurd (show missingOperationIdMessage = "No schemas defined in components" from
              congrArg ValidationIssue.message (List.mem_singleton.mp hw)) (by decide)
          · simp at hw
        · simp at hw
      · simp at hw

theorem exceptOkBind {α β : Type} (a : α) (f : α → Except String β) :
    (Except.ok a >>= f) = f a := rfl

theorem exceptErrorBind {α β : Type} (e : String) (f : α → Except String β) :
    ((Except.error e : Except String α) >>= f) = .error e := rfl

theorem parseOp_some_shape (p m : String) (item : Json) (d : OperationMetadata)
    (h : parseOp p m item = .ok (some d)) : d.path = p ∧ d.method = m := by
  by_cases hnn : item = Json.null
  · rw [hnn] at h
    exact absurd h (by intro hc; exact nomatch hc)
  have hread : readMethodProp item m = .ok (getProp item m) := by
    cases item <;> first | exact absurd rfl hnn | rfl
  rw [parseOp, hread, exceptOkBind] at h
  cases hg : getProp item m with
  | none => simp only [hg] at h; exact nomatch h
  | some operation =>
    simp only [hg] at h
    by_cases ht : truthy operation
    · rw [if_neg (by simp [ht])] at h
      cases hic : extractorOpId (getProp operation "operationId") with
      | none => simp only [hic] at h; exact nomatch h
      | some s =>
        simp only [hic] at h
        cases hq : hasQueryParamsOf (getProp operation "parameters") with
        | error e => rw [hq, exceptErrorBind] at h; exact nomatch h
        | ok b =>
          rw [hq, exceptOkBind] at h
          have h2 := (Option.some.injEq _ _).mp ((Except.ok.injEq _ _).mp h)
          constructor
          · rw [← h2]
          · rw [← h2]
    · rw [if_pos (by simp [ht])] at h
      exact nomatch h

theorem parseOp_skip_falsy (p m : String) (item : Json) (op : Json)
    (hnn : item ≠ Json.null)
    (hg : getProp item m = some op) (ht : truthy op = true)
    (hfal : truthyOpt (getProp op "operationId") = false) :
    parseOp p m item = .ok none := by
  have hread : readMethodProp item m = .ok (getProp item m) := by
    cases item <;> first | exact absurd rfl hnn | rfl
  rw [parseOp, hread, exceptOkBind]
  simp only [hg]
  rw [if_neg (by simp [ht])]
  have hic : extractorOpId (getProp op "operationId") = none := by
    cases hid : getProp op "operationId" with
    | none => rfl
    | some v =>
      rw [hid] at hfal
      cases v with
      | str s =>
        have hs : s = "" := by simpa [truthyOpt, truthy] using hfal
        simp [extractorOpId, hs]
      | null => rfl
      | bool bv => rfl
      | num nv => rfl
      | arr av => rfl
      | obj ov => rfl
  simp only [hic]

theorem parseMethods_mem_shape (p : String) (item : Json) :
    ∀ (ms : List String) (l : List OperationMetadata), parseMethods p item ms = .ok l →
      ∀ d ∈ l, d.path = p ∧ d.method ∈ ms ∧ parseOp p d.method item = .ok (some d) := by
  intro ms
  induction ms with
  | nil =>
    intro l h d hd
    rw [parseMethods] at h
    have : ([] : List OperationMetadata) = l := (Except.ok.injEq _ _).mp h
    rw [← this] at hd
    simp at hd
  | cons m rest ih =>
    intro l h d hd
    rw [parseMethods] at h
    cases ho : parseOp p m item with
    | error e => rw [ho, exceptErrorBind] at h; exact nomatch h
    | ok o =>
      rw [ho, exceptOkBind] at h
      cases hr : parseMethods p item rest with
      | error e => rw [hr, exceptErrorBind] at h; exact nomatch h
      | ok r =>
        rw [hr, exceptOkBind] at h
        cases o with
        | none =>
          have hrl : r = l := (Except.ok.injEq _ _).mp h
          rw [← hrl] at hd
          obtain ⟨h1, h2, h3⟩ := ih r hr d hd
          exact ⟨h1, List.mem_cons_of_mem _ h2, h3⟩
        | some meta =>
          have hml : meta :: r = l := (Except.ok.injEq _ _).mp h
          rw [← hml] at hd
          rcases List.mem_cons.mp hd with rfl | hd2
          · obtain ⟨hp2, hm2⟩ := parseOp_some_shape p m item d ho
            refine ⟨hp2, ?_, ?_⟩
            · rw [hm2]; exact List.mem_cons_self _ _
            · rw [hm2]; exact ho
          · obtain ⟨h1, h2, h3⟩ := ih r hr d hd2
            exact ⟨h1, List.mem_cons_of_mem _ h2, h3⟩

theorem parseEntries_mem (entries : List (String × Json)) :
    ∀ l, parseEntries entries = .ok l → ∀ d ∈ l,
      ∃ item lm, (d.path, item) ∈ entries ∧
        parseMethods d.path item methodList = .ok lm ∧ d ∈ lm := by
  induction entries with
  | nil =>
    intro l h d hd
    rw [parseEntries] at h
    have : ([] : List OperationMetadata) = l := (Except.ok.injEq _ _).mp h
    rw [← this] at hd
    simp at hd
  | cons e rest ih =>
    obtain ⟨pk, item⟩ := e
    intro l h d hd
    rw [parseEntries] at h
    cases ho : parseMethods pk item methodList with
    | error er => rw [ho, exceptErrorBind] at h; exact nomatch h
    | ok ops =>
      rw [ho, exceptOkBind] at h
      cases hm : parseEntries rest with
      | error er => rw [hm, exceptErrorBind] at h; exact nomatch h
      | ok more =>
        rw [hm, exceptOkBind] at h
        have hl : ops ++ more = l := (Except.ok.injEq _ _).mp h
        rw [← hl] at hd
        rcases List.mem_append.mp hd with hd1 | hd2
        · have hdp : d.path = pk := (parseMethods_mem_shape pk item methodList ops ho d hd1).1
          refine ⟨item, ops, ?_, ?_, hd1⟩
          · rw [hdp]; exact List.mem_cons_self _ _
          · rw [hdp]; exact ho
        · obtain ⟨item2, lm2, hmem, hpm, hdm⟩ := ih more hm d hd2
          exact ⟨item2, lm2, List.mem_cons_of_mem _ hmem, hpm, hdm⟩

theorem nodup_keys_unique {β : Type} (l : List (String × β))
    (h : (l.map Prod.fst).Nodup) {k : String} {a b : β}
    (ha : (k, a) ∈ l) (hb : (k, b) ∈ l) : a = b := by
  induction l with
  | nil => simp at ha
  | cons e rest ih =>
    rw [List.map_cons, List.nodup_cons] at h
    rcases List.mem_cons.mp ha with ha1 | ha2
    · rcases List.mem_cons.mp hb with hb1 | hb2
      · rw [← ha1] at hb1
        exact ((Prod.mk.injEq _ _ _ _).mp hb1.symm).2
      · exfalso
        apply h.1
        rw [← ha1]
        exact List.mem_map.mpr ⟨(k, b), hb2, rfl⟩
    · rcases List.mem_cons.mp hb with hb1 | hb2
      · exfalso
        apply h.1
        rw [← hb1]
        exact List.mem_map.mpr ⟨(k, a), ha2, rfl⟩
      · exact ih h.2 ha2 hb2

/-- C3 amended: the validator warning rule (falsy `operationId`) is strictly
stronger than the extractor skip rule (falsy or non-string `operationId`): a
missing-operationId warning at `/paths<p>/<m>` guarantees the extractor
emits no descriptor for `(p, m)`, but not conversely (a truthy non-string id
is dropped silently, as the counterexample shows). -/
theorem c3_warning_implies_skip (spec : Json) (ops : List OperationMetadata)
    (p m : String)
    (hok : parseOperations spec = .ok ops)
    (hnodup : ((specPathEntries spec).map Prod.fst).Nodup)
    (hm : m ∈ methodList)
    (hw : missingOpIdWarning p m ∈ validateSpec spec) :
    ¬ ∃ d ∈ ops, d.path = p ∧ d.method = m := by
  rintro ⟨d, hd, hdp, hdm⟩
  rw [parseOperations_eq_parseEntries] at hok
  obtain ⟨item, lm, hmem, hpm, hdlm⟩ := parseEntries_mem (specPathEntries spec) ops hok d hd
  have hw2 := validateSpec_missing_mem spec p m hw
  obtain ⟨pk, item2, hmem2, hw3⟩ := validatePathEntries_missing_mem _ p m hw2
  obtain ⟨m2, hm2mem, hpath, op, hgop, htop, hfal⟩ :=
    validateMethods_missing_mem pk item2 methodList p m hw3
  obtain ⟨hppk, hmm2⟩ := issuePath_inj p pk m m2
    (methodList_no_slash m hm) (methodList_no_slash m2 hm2mem) hpath
  rw [hdp] at hmem
  rw [← hppk] at hmem2
  have hitem : item = item2 := nodup_keys_unique _ hnodup hmem hmem2
  have hshape := parseMethods_mem_shape d.path item methodList lm hpm d hdlm
  have hsome : parseOp d.path d.method item = .ok (some d) := hshape.2.2
  have hnn : item ≠ Json.null := by
    intro he
    rw [he] at hsome
    exact nomatch hsome
  have hnn2 : item2 ≠ Json.null := hitem ▸ hnn
  have hskip : parseOp p m item2 = .ok none := by
    rw [hmm2]
    exact parseOp_skip_falsy p m2 item2 op hnn2 hgop htop hfal
  rw [hdp, hdm, hitem] at hsome
  exact nomatch (hskip.symm.trans hsome)

/-- Witness for C3 amended: a spec whose one operation lacks `operationId`
gets the warning, and extraction yields no descriptors at all. -/
theorem c3_witness :
    ¬ ∃ d ∈ ([] : List OperationMetadata), d.path = "/a" ∧ d.method = "get" :=
  c3_warning_implies_skip
    (Json.obj [("paths", Json.obj [("/a", Json.obj [("get", Json.obj [])])])])
    [] "/a" "get" rfl (by decide) (by decide) (by decide)

theorem mapGet_eq_none_iff (M : List (String × OperationInfo)) (k : String) :
    mapGet M k = none ↔ k ∉ M.map Prod.fst := by
  rw [mapGet, Option.map_eq_none', List.find?_eq_none]
  constructor
  · intro h hk
    obtain ⟨e, he, hfst⟩ := List.mem_map.mp hk
    have h2 := h e he
    simp only [hfst] at h2
    simp at h2
  · intro h e he hbeq
    have hek : e.1 = k := beq_iff_eq.mp (by simpa using hbeq)
    exact h (List.mem_map.mpr ⟨e, he, hek⟩)

theorem mapGet_mem (M : List (String × OperationInfo)) (k : String) (v : OperationInfo)
    (h : mapGet M k = some v) : (k, v) ∈ M := by
  rw [mapGet] at h
  cases hf : M.find? (fun p => p.1 == k) with
  | none => rw [hf] at h; exact nomatch h
  | some e =>
    rw [hf] at h
    have hek : e.1 = k := by
      have := List.find?_some hf
      simpa using this
    have hev : e.2 = v := by simpa using h
    have hmem := List.mem_of_find?_eq_some hf
    rw [← hek, ← hev]
    simpa using hmem

theorem mapGet_of_mem_nodup (M : List (String × OperationInfo))
    (h : (M.map Prod.fst).Nodup) {k : String} {v : OperationInfo}
    (hm : (k, v) ∈ M) : mapGet M k = some v := by
  induction M with
  | nil => simp at hm
  | cons e rest ih =>
    rw [List.map_cons, List.nodup_cons] at h
    rcases List.mem_cons.mp hm with h1 | h2
    · rw [← h1]
      simp [mapGet, List.find?]
    · have hek : e.1 ≠ k := by
        intro hek
        apply h.1
        rw [hek]
        exact List.mem_map.mpr ⟨(k, v), h2, rfl⟩
      rw [mapGet, List.find?]
      rw [show (e.1 == k) = false from beq_eq_false_iff_ne.mpr hek]
      exact ih h.2 h2

theorem diffNewLoop_fst_mem (A : List (String × OperationInfo)) :
    ∀ (B : List (String × OperationInfo)) (i : OperationInfo),
      (i ∈ (diffNewLoop A B).1 ↔ ∃ id, (id, i) ∈ B ∧ mapGet A id = none) := by
  intro B
  induction B with
  | nil => intro i; simp [diffNewLoop]
  | cons e rest ih =>
    obtain ⟨id0, v0⟩ := e
    intro i
    rw [diffNewLoop]
    cases hga : mapGet A id0 with
    | none =>
      simp only [hga]
      constructor
      · intro hmem
        rcases List.mem_cons.mp hmem with h1 | h2
        · exact ⟨id0, by rw [h1]; exact List.mem_cons_self _ _, hga⟩
        · obtain ⟨id, hmemb, hnone⟩ := (ih i).mp h2
          exact ⟨id, List.mem_cons_of_mem _ hmemb, hnone⟩
      · rintro ⟨id, hmemb, hnone⟩
        rcases List.mem_cons.mp hmemb with h1 | h2
        · have hv : i = v0 := congrArg Prod.snd h1
          rw [hv]
          exact List.mem_cons_self _ _
        · exact List.mem_cons_of_mem _ ((ih i).mpr ⟨id, h2, hnone⟩)
    | some currentOp =>
      simp only [hga]
      have hstep : ∀ (hmemb : (id0, i) ∈ ((id0, v0) :: rest)), True := fun _ => trivial
      by_cases hch : hasChanges currentOp v0
      · rw [if_pos hch]
        constructor
        · intro hmem
          obtain ⟨id, hmemb, hnone⟩ := (ih i).mp hmem
          exact ⟨id, List.mem_cons_of_mem _ hmemb, hnone⟩
        · rintro ⟨id, hmemb, hnone⟩
          rcases List.mem_cons.mp hmemb with h1 | h2
          · exfalso
            have hid : id = id0 := congrArg Prod.fst h1
            rw [hid] at hnone
            rw [hnone] at hga
            exact nomatch hga
          · exact (ih i).mpr ⟨id, h2, hnone⟩
      · rw [if_neg hch]
        constructor
        · intro hmem
          obtain ⟨id, hmemb, hnone⟩ := (ih i).mp hmem
          exact ⟨id, List.mem_cons_of_mem _ hmemb, hnone⟩
        · rintro ⟨id, hmemb, hnone⟩
          rcases List.mem_cons.mp hmemb with h1 | h2
          · exfalso
            have hid : id = id0 := congrArg Prod.fst h1
            rw [hid] at hnone
            rw [hnone] at hga
            exact nomatch hga
          · exact (ih i).mpr ⟨id, h2, hnone⟩

theorem diffRemovedLoop_mem (Bm : List (String × OperationInfo)) :
    ∀ (A : List (String × OperationInfo)) (i : OperationInfo),
      (i ∈ diffRemovedLoop Bm A ↔ ∃ id, (id, i) ∈ A ∧ mapGet Bm id = none) := by
  intro A
  induction A with
  | nil => intro i; simp [diffRemovedLoop]
  | cons e rest ih =>
    obtain ⟨id0, v0⟩ := e
    intro i
    rw [diffRemovedLoop, List.mem_append]
    constructor
    · intro hmem
      rcases hmem with h1 | h2
      · by_cases hg : (mapGet Bm id0).isNone
        · rw [if_pos hg] at h1
          rw [List.mem_singleton] at h1
          exact ⟨id0, by rw [h1]; exact List.mem_cons_self _ _,
            Option.isNone_iff_eq_none.mp hg⟩
        · rw [if_neg hg] at h1
          simp at h1
      · obtain ⟨id, hmema, hnone⟩ := (ih i).mp h2
        exact ⟨id, List.mem_cons_of_mem _ hmema, hnone⟩
    · rintro ⟨id, hmema, hnone⟩
      rcases List.mem_cons.mp hmema with h1 | h2
      · left
        have hid : id0 = id := congrArg Prod.fst h1.symm
        have hv : v0 = i := congrArg Prod.snd h1.symm
        rw [if_pos (by rw [hid, hnone]; rfl)]
        rw [List.mem_singleton]
        exact hv.symm
      · right
        exact (ih i).mpr ⟨id, h2, hnone⟩

theorem diffNewLoop_modified_count_zero (A : List (String × OperationInfo)) (id : String) :
    ∀ (B : List (String × OperationInfo)),
      (∀ e ∈ B, e.2.operationId = e.1) → (∀ e ∈ B, e.1 ≠ id) →
      (diffNewLoop A B).2.countP (fun pr => pr.2.operationId == id) = 0 := by
  intro B
  induction B with
  | nil => intro _ _; simp [diffNewLoop]
  | cons e rest ih =>
    obtain ⟨id0, v0⟩ := e
    intro hk hne
    have hrest := ih (fun e he => hk e (List.mem_cons_of_mem _ he))
      (fun e he => hne e (List.mem_cons_of_mem _ he))
    rw [diffNewLoop]
    cases hga : mapGet A id0 with
    | none => simpa using hrest
    | some currentOp =>
      simp only [hga]
      by_cases hch : hasChanges currentOp v0
      · rw [if_pos hch]
        show ((currentOp, v0) :: (diffNewLoop A rest).2).countP _ = 0
        rw [List.countP_cons]
        have hv0 : v0.operationId = id0 := hk (id0, v0) (List.mem_cons_self _ _)
        have hid0 : id0 ≠ id := hne (id0, v0) (List.mem_cons_self _ _)
        have hpred : (v0.operationId == id) = false := by
          rw [hv0]
          exact beq_eq_false_iff_ne.mpr hid0
        simp [hpred, hrest]
      · rw [if_neg hch]
        exact hrest

theorem diffNewLoop_modified_count (A : List (String × OperationInfo))
    (id : String) (a : OperationInfo) (ha : mapGet A id = some a) :
    ∀ (B : List (String × OperationInfo)),
      (B.map Prod.fst).Nodup → (∀ e ∈ B, e.2.operationId = e.1) →
      ∀ b, mapGet B id = some b →
      (diffNewLoop A B).2.countP (fun pr => pr.2.operationId == id)
        = if hasChanges a b then 1 else 0 := by
  intro B
  induction B with
  | nil => intro _ _ b hb; exact nomatch hb
  | cons e rest ih =>
    obtain ⟨id0, v0⟩ := e
    intro hnodup hk b hb
    rw [List.map_cons, List.nodup_cons] at hnodup
    by_cases hid0 : id0 = id
    · have hv0 : v0 = b := by
        rw [mapGet, List.find?] at hb
        rw [show ((id0, v0).1 == id) = true from beq_iff_eq.mpr hid0] at hb
        simpa using hb
      have hrest0 : (diffNewLoop A rest).2.countP (fun pr => pr.2.operationId == id) = 0 := by
        apply diffNewLoop_modified_count_zero
        · exact fun e he => hk e (List.mem_cons_of_mem _ he)
        · intro e he hek
          apply hnodup.1
          rw [hid0, ← hek]
          exact List.mem_map.mpr ⟨e, he, rfl⟩
      rw [diffNewLoop]
      rw [hid0]
      simp only [ha]
      by_cases hch : hasChanges a v0
      · rw [if_pos hch]
        show ((a, v0) :: (diffNewLoop A rest).2).countP _ = _
        rw [List.countP_cons]
        have hvk : v0.operationId = id := by
          rw [hk (id0, v0) (List.mem_cons_self _ _)]
          exact hid0
        rw [hrest0]
        rw [hv0] at hch
        simp [hvk, hch]
      · rw [if_neg hch]
        rw [hv0] at hch
        simp [hrest0, hch]
    · have hb2 : mapGet rest id = some b := by
        rw [mapGet, List.find?] at hb
        rw [show ((id0, v0).1 == id) = false from beq_eq_false_iff_ne.mpr hid0] at hb
        exact hb
      have hrest := ih hnodup.2 (fun e he => hk e (List.mem_cons_of_mem _ he)) b hb2
      rw [diffNewLoop]
      cases hga : mapGet A id0 with
      | none => simpa using hrest
      | some currentOp =>
        simp only [hga]
        by_cases hch : hasChanges currentOp v0
        · rw [if_pos hch]
          show ((currentOp, v0) :: (diffNewLoop A rest).2).countP _ = _
          rw [List.countP_cons]
          have hpred : (v0.operationId == id) = false := by
            rw [hk (id0, v0) (List.mem_cons_self _ _)]
            exact beq_eq_false_iff_ne.mpr hid0
          simp [hpred, hrest]
        · rw [if_neg hch]
          exact hrest

/-- C6: on operation maps keyed by `operationId` (unique keys, key equal to
the record field), the diff classifies `added = B \\ A` and
`removed = A \\ B` by id, classifies every id in the intersection exactly
once (in `modified` iff the two records differ), and the difference test
reads exactly the four fields method, path, hasRequestBody, summary — the
comparison record carries no other data, so description, pathParams and
hasQueryParams cannot influence it. -/
theorem c6_diff_classification (A B : List (String × OperationInfo))
    (hA : (A.map Prod.fst).Nodup) (hB : (B.map Prod.fst).Nodup)
    (hkA : ∀ e ∈ A, e.2.operationId = e.1) (hkB : ∀ e ∈ B, e.2.operationId = e.1) :
    (∀ id, (∃ i ∈ (diffRun A B).added, i.operationId = id) ↔
      (id ∈ B.map Prod.fst ∧ id ∉ A.map Prod.fst)) ∧
    (∀ id, (∃ i ∈ (diffRun A B).removed, i.operationId = id) ↔
      (id ∈ A.map Prod.fst ∧ id ∉ B.map Prod.fst)) ∧
    (∀ id a b, mapGet A id = some a → mapGet B id = some b →
      (diffRun A B).modified.countP (fun pr => pr.2.operationId == id)
        = if hasChanges a b then 1 else 0) ∧
    (∀ a b, hasChanges a b =
      (a.method != b.method || a.path != b.path ||
       a.hasRequestBody != b.hasRequestBody || a.summary != b.summary)) := by
  refine ⟨?_, ?_, ?_, fun a b => rfl⟩
  · intro id
    constructor
    · rintro ⟨i, hi, hiid⟩
      obtain ⟨id2, hmem, hnone⟩ := (diffNewLoop_fst_mem A B i).mp hi
      have : i.operationId = id2 := hkB (id2, i) hmem
      rw [hiid] at this
      rw [← this] at hmem hnone
      exact ⟨List.mem_map.mpr ⟨(id, i), hmem, rfl⟩, (mapGet_eq_none_iff A id).mp hnone⟩
    · rintro ⟨hBk, hAk⟩
      obtain ⟨e, he, hfst⟩ := List.mem_map.mp hBk
      refine ⟨e.2, ?_, ?_⟩
      · apply (diffNewLoop_fst_mem A B e.2).mpr
        exact ⟨id, by rw [← hfst]; exact he, (mapGet_eq_none_iff A id).mpr hAk⟩
      · rw [hkB e he, hfst]
  · intro id
    constructor
    · rintro ⟨i, hi, hiid⟩
      obtain ⟨id2, hmem, hnone⟩ := (diffRemovedLoop_mem B A i).mp hi
      have : i.operationId = id2 := hkA (id2, i) hmem
      rw [hiid] at this
      rw [← this] at hmem hnone
      exact ⟨List.mem_map.mpr ⟨(id, i), hmem, rfl⟩, (mapGet_eq_none_iff B id).mp hnone⟩
    · rintro ⟨hAk, hBk⟩
      obtain ⟨e, he, hfst⟩ := List.mem_map.mp hAk
      refine ⟨e.2, ?_, ?_⟩
      · apply (diffRemovedLoop_mem B A e.2).mpr
        exact ⟨id, by rw [← hfst]; exact he, (mapGet_eq_none_iff B id).mpr hBk⟩
      · rw [hkA e he, hfst]
  · intro id a b ha hb
    exact diffNewLoop_modified_count A id a ha B hB hkB b hb

/-- Witness for C6 on concrete two-entry maps. -/
theorem c6_witness :
    ((∃ i ∈ (diffRun
        [("keep", ⟨"keep", "get", "/k", false, "s"⟩),
         ("old", ⟨"old", "get", "/o", false, "s"⟩)]
        [("keep", ⟨"keep", "get", "/k", true, "s"⟩),
         ("new", ⟨"new", "post", "/n", true, "t"⟩)]).added, i.operationId = "new") ↔
      ("new" ∈ ([("keep", (⟨"keep", "get", "/k", true, "s"⟩ : OperationInfo)),
         ("new", ⟨"new", "post", "/n", true, "t"⟩)].map Prod.fst) ∧
       "new" ∉ ([("keep", (⟨"keep", "get", "/k", false, "s"⟩ : OperationInfo)),
         ("old", ⟨"old", "get", "/o", false, "s"⟩)].map Prod.fst))) ∧
    (diffRun
        [("keep", ⟨"keep", "get", "/k", false, "s"⟩),
         ("old", ⟨"old", "get", "/o", false, "s"⟩)]
        [("keep", ⟨"keep", "get", "/k", true, "s"⟩),
         ("new", ⟨"new", "post", "/n", true, "t"⟩)]).modified.countP
      (fun pr => pr.2.operationId == "keep")
      = if hasChanges ⟨"keep", "get", "/k", false, "s"⟩ ⟨"keep", "get", "/k", true, "s"⟩
        then 1 else 0 :=
  ⟨(c6_diff_classification
      [("keep", ⟨"keep", "get", "/k", false, "s"⟩), ("old", ⟨"old", "get", "/o", false, "s"⟩)]
      [("keep", ⟨"keep", "get", "/k", true, "s"⟩), ("new", ⟨"new", "post", "/n", true, "t"⟩)]
      (by decide) (by decide) (by decide) (by decide)).1 "new",
   (c6_diff_classification
      [("keep", ⟨"keep", "get", "/k", false, "s"⟩), ("old", ⟨"old", "get", "/o", false, "s"⟩)]
      [("keep", ⟨"keep", "get", "/k", true, "s"⟩), ("new", ⟨"new", "post", "/n", true, "t"⟩)]
      (by decide) (by decide) (by decide) (by decide)).2.2.1 "keep" _ _ rfl rfl⟩

/-- The C9 counterexample payload: FastAPI-style `detail` whose first
element carries the numeric `msg` 42. -/
def c9Detail : Json := .obj [("detail", .arr [.obj [("msg", .num 42)]])]

/-- C9 counterexample: `normalizeErrorMessage` returns the number `42`
verbatim, not a string; and a fulfilled response whose body is `null` makes
`safeRequest` resolve with both fields null, so "exactly one of the two
fields null" fails as well. -/
theorem c9_counterexample :
    normalizeErrorMessage c9Detail = .num 42 ∧
    isStringJson (normalizeErrorMessage c9Detail) = false ∧
    safeRequest (.resolved .null) = { data := Json.null, error := none } :=
  ⟨rfl, rfl, rfl⟩

theorem detailElemMsg_some (x v : Json) (h : detailElemMsg x = some v) :
    getProp x "msg" = some v ∧ truthy v = true := by
  cases x with
  | null => exact nomatch h
  | bool b =>
    rw [show detailElemMsg (.bool b) = none from rfl] at h
    exact nomatch h
  | num n =>
    rw [show detailElemMsg (.num n) = none from rfl] at h
    exact nomatch h
  | str s =>
    rw [show detailElemMsg (.str s) = none from rfl] at h
    exact nomatch h
  | arr xs =>
    rw [show detailElemMsg (.arr xs) = none from rfl] at h
    exact nomatch h
  | obj fs =>
    have hred : detailElemMsg (.obj fs)
        = (match getProp (.obj fs) "msg" with
           | none => none
           | some m => if truthy m then some m else none) := rfl
    rw [hred] at h
    cases hm : getProp (.obj fs) "msg" with
    | none => rw [hm] at h; exact nomatch h
    | some m =>
      simp only [hm] at h
      by_cases ht : truthy m
      · rw [if_pos ht] at h
        have := (Option.some.injEq _ _).mp h
        rw [← this]
        exact ⟨rfl, ht⟩
      · rw [if_neg ht] at h
        exact nomatch h

theorem detailMsg_characterization (e v : Json) (h : detailMsg e = some v) :
    isStringJson v = true ∨
    ∃ x rest, getProp e "detail" = some (Json.arr (x :: rest)) ∧
      getProp x "msg" = some v ∧ truthy v = true := by
  rw [detailMsg] at h
  cases hd : getProp e "detail" with
  | none => rw [hd] at h; exact nomatch h
  | some dv =>
    simp only [hd] at h
    cases dv with
    | str s =>
      left
      have := (Option.some.injEq _ _).mp h
      rw [← this]
      rfl
    | arr xs =>
      cases xs with
      | nil => exact nomatch h
      | cons x rest =>
        right
        obtain ⟨hmsg, htr⟩ := detailElemMsg_some x v h
        exact ⟨x, rest, rfl, hmsg, htr⟩
    | null => exact nomatch h
    | bool b => exact nomatch h
    | num n => exact nomatch h
    | obj fs => exact nomatch h

theorem normalizeErrorMessage_obj_arr (e : Json)
    (he : (match e with | Json.obj _ => true | Json.arr _ => true | _ => false) = true) :
    isStringJson (normalizeErrorMessage e) = true ∨
    ∃ x rest, getProp e "detail" = some (Json.arr (x :: rest)) ∧
      getProp x "msg" = some (normalizeErrorMessage e) ∧
      truthy (normalizeErrorMessage e) = true := by
  have hn : normalizeErrorMessage e
      = (match stringField (getProp e "message") with
         | some s => .str s
         | none =>
           match errorFieldMsg e with
           | some s => .str s
           | none =>
             match errorsFieldMsg e with
             | some s => .str s
             | none =>
               match detailMsg e with
               | some v => v
               | none =>
                 match titleMsg e with
                 | some s => .str s
                 | none => .str "An unexpected error occurred") := by
    cases e <;> first | rfl | (exact absurd he (by decide))
  rw [hn]
  cases h1 : stringField (getProp e "message") with
  | some s => left; rfl
  | none =>
    cases h2 : errorFieldMsg e with
    | some s => left; rfl
    | none =>
      cases h3 : errorsFieldMsg e with
      | some s => left; rfl
      | none =>
        cases h4 : detailMsg e with
        | none =>
          cases h5 : titleMsg e with
          | some s => left; rfl
          | none => left; rfl
        | some v =>
          rcases detailMsg_characterization e v h4 with hstr | ⟨x, rest, hdet, hmsg, htr⟩
          · left; exact hstr
          · right; exact ⟨x, rest, hdet, hmsg, htr⟩

/-- C9 amended: the error module is total — `normalizeErrorMessage` always
returns, and returns a string except when the FastAPI branch returns a
truthy non-string `detail[0].msg` verbatim; `safeRequest` always resolves to
a `\x7bdata, error\x7d` result with `error` null exactly on success and `data`
null on failure (on success `data` is the response body, which may itself be
null, as the counterexample shows). -/
theorem c9_error_module_total :
    (∀ e : Json, isStringJson (normalizeErrorMessage e) = true ∨
      ∃ x rest, getProp e "detail" = some (Json.arr (x :: rest)) ∧
        getProp x "msg" = some (normalizeErrorMessage e) ∧
        truthy (normalizeErrorMessage e) = true) ∧
    (normalizeErrorMessage Json.null = .str "An unexpected error occurred") ∧
    (∀ d : Json, safeRequest (.resolved d) = { data := d, error := none }) ∧
    (∀ er : JsThrown, safeRequest (.rejected er) =
      { data := Json.null, error := some (createApiError er) }) := by
  refine ⟨?_, rfl, fun d => rfl, fun er => rfl⟩
  intro e
  cases e with
  | obj fs => exact normalizeErrorMessage_obj_arr (.obj fs) rfl
  | arr xs => exact normalizeErrorMessage_obj_arr (.arr xs) rfl
  | null => left; rfl
  | bool b => left; rfl
  | num n => left; rfl
  | str s => left; rfl

theorem extractOperations_eq_extractEntriesD (spec : Json) :
    extractOperations spec = extractEntriesD (specPathEntries spec) [] := by
  cases spec with
  | obj fs =>
    simp only [extractOperations, specPathEntries]
    cases getProp (.obj fs) "paths" with
    | none => rfl
    | some p =>
      by_cases hp : truthy p
      · simp [hp]
      · simp [hp, extractEntriesD]
  | _ => rfl

theorem beq_str_eq (j : Json) (s : String) (h : Json.beq j (.str s) = true) :
    j = .str s := by
  cases j <;> simp [Json.beq] at h ⊢
  exact h

theorem extractorOpId_some (idv : Option Json) (s : String)
    (h : extractorOpId idv = some s) : idv = some (.str s) ∧ s ≠ "" := by
  cases idv with
  | none => exact nomatch h
  | some v =>
    cases v with
    | str t =>
      by_cases ht : t = ""
      · rw [extractorOpId, if_pos ht] at h
        exact nomatch h
      · rw [extractorOpId, if_neg ht] at h
        have := (Option.some.injEq _ _).mp h
        rw [← this]
        exact ⟨rfl, ht⟩
    | null => exact nomatch h
    | bool b => exact nomatch h
    | num n => exact nomatch h
    | arr xs => exact nomatch h
    | obj fs => exact nomatch h

theorem extractOpD_of_parseOp (p m : String) (item : Json) (d : OperationMetadata)
    (h : parseOp p m item = .ok (some d)) :
    ∃ info, extractOpD p m item = .ok (some (Json.str d.operationId, info)) := by
  by_cases hnn : item = Json.null
  · rw [hnn] at h
    exact absurd h (by intro hc; exact nomatch hc)
  have hread : readMethodProp item m = .ok (getProp item m) := by
    cases item <;> first | exact absurd rfl hnn | rfl
  rw [parseOp, hread, exceptOkBind] at h
  rw [extractOpD, hread, exceptOkBind]
  cases hg : getProp item m with
  | none => simp only [hg] at h; exact nomatch h
  | some operation =>
    simp only [hg] at h ⊢
    by_cases ht : truthy operation
    · rw [if_neg (by simp [ht])] at h
      rw [if_neg (by simp [ht])]
      cases hic : extractorOpId (getProp operation "operationId") with
      | none => simp only [hic] at h; exact nomatch h
      | some s =>
        simp only [hic] at h
        obtain ⟨hid, hs⟩ := extractorOpId_some _ s hic
        cases hq : hasQueryParamsOf (getProp operation "parameters") with
        | error e => rw [hq, exceptErrorBind] at h; exact nomatch h
        | ok b =>
          rw [hq, exceptOkBind] at h
          have h2 := (Option.some.injEq _ _).mp ((Except.ok.injEq _ _).mp h)
          have hds : d.operationId = s := by rw [← h2]
          simp only [hid]
          rw [if_neg (by simp [truthy, hs])]
          exact ⟨⟨Json.str s, m, p, truthyOpt (getProp operation "requestBody"),
            jsCoalesce (getProp operation "summary") (Json.str "")⟩, by rw [hds]⟩
    · rw [if_pos (by simp [ht])] at h
      exact nomatch h

theorem mapSetD_mono (acc : List (Json × DiffOpInfo)) (k2 : Json) (v2 : DiffOpInfo)
    (k : Json) (w : DiffOpInfo) (h : (k, w) ∈ acc) :
    ∃ w2, (k, w2) ∈ mapSetD acc k2 v2 := by
  rw [mapSetD]
  by_cases hany : acc.any (fun p => Json.beq p.1 k2) = true
  · rw [if_pos hany]
    by_cases hb : Json.beq k k2 = true
    · exact ⟨v2, List.mem_map.mpr ⟨(k, w), h, by simp [hb]⟩⟩
    · exact ⟨w, List.mem_map.mpr ⟨(k, w), h, by simp [hb]⟩⟩
  · rw [if_neg hany]
    exact ⟨w, List.mem_append_left _ h⟩

theorem mapSetD_str_mem (acc : List (Json × DiffOpInfo)) (s : String) (v : DiffOpInfo) :
    ∃ w, (Json.str s, w) ∈ mapSetD acc (.str s) v := by
  rw [mapSetD]
  by_cases hany : acc.any (fun p => Json.beq p.1 (.str s)) = true
  · rw [if_pos hany]
    obtain ⟨q, hq, hbeq⟩ := List.any_eq_true.mp hany
    refine ⟨v, List.mem_map.mpr ⟨q, hq, ?_⟩⟩
    rw [if_pos hbeq, beq_str_eq q.1 s hbeq]
  · rw [if_neg hany]
    exact ⟨v, List.mem_append_right _ (List.mem_singleton.mpr rfl)⟩

theorem extractMethodsD_mono (p : String) (item : Json) :
    ∀ (ms : List String) (acc r : List (Json × DiffOpInfo)),
      extractMethodsD p item ms acc = .ok r →
      ∀ k w, (k, w) ∈ acc → ∃ w2, (k, w2) ∈ r := by
  intro ms
  induction ms with
  | nil =>
    intro acc r h k w hm
    have : acc = r := (Except.ok.injEq _ _).mp h
    exact ⟨w, this ▸ hm⟩
  | cons m rest ih =>
    intro acc r h k w hm
    rw [extractMethodsD] at h
    cases ho : extractOpD p m item with
    | error e => rw [ho, exceptErrorBind] at h; exact nomatch h
    | ok o =>
      rw [ho, exceptOkBind] at h
      cases o with
      | none => exact ih acc r h k w hm
      | some kv =>
        obtain ⟨w2, hw2⟩ := mapSetD_mono acc kv.1 kv.2 k w hm
        exact ih (mapSetD acc kv.1 kv.2) r h k w2 hw2

theorem parseMethods_sub_extract (p : String) (item : Json) :
    ∀ (ms : List String) (acc : List (Json × DiffOpInfo)) (lm : List OperationMetadata)
      (r : List (Json × DiffOpInfo)),
      parseMethods p item ms = .ok lm → extractMethodsD p item ms acc = .ok r →
      ∀ d ∈ lm, ∃ w, (Json.str d.operationId, w) ∈ r := by
  intro ms
  induction ms with
  | nil =>
    intro acc lm r hp _ d hd
    have : ([] : List OperationMetadata) = lm := (Except.ok.injEq _ _).mp hp
    rw [← this] at hd
    simp at hd
  | cons m rest ih =>
    intro acc lm r hp he d hd
    rw [parseMethods] at hp
    rw [extractMethodsD] at he
    cases ho : parseOp p m item with
    | error e => rw [ho, exceptErrorBind] at hp; exact nomatch hp
    | ok o =>
      rw [ho, exceptOkBind] at hp
      cases hrest : parseMethods p item rest with
      | error e => rw [hrest, exceptErrorBind] at hp; exact nomatch hp
      | ok l2 =>
        rw [hrest, exceptOkBind] at hp
        cases o with
        | none =>
          have hl : l2 = lm := (Except.ok.injEq _ _).mp hp
          rw [← hl] at hd
          cases ho2 : extractOpD p m item with
          | error e => rw [ho2, exceptErrorBind] at he; exact nomatch he
          | ok o2 =>
            rw [ho2, exceptOkBind] at he
            exact ih _ l2 r hrest he d hd
        | some meta =>
          have hl : meta :: l2 = lm := (Except.ok.injEq _ _).mp hp
          rw [← hl] at hd
          obtain ⟨info, hinfo⟩ := extractOpD_of_parseOp p m item meta ho
          rw [hinfo, exceptOkBind] at he
          rcases List.mem_cons.mp hd with rfl | hd2
          · obtain ⟨w, hw⟩ := mapSetD_str_mem acc d.operationId info
            exact extractMethodsD_mono p item rest _ r he (Json.str d.operationId) w hw
          · exact ih _ l2 r hrest he d hd2

theorem extractEntriesD_mono :
    ∀ (entries : List (String × Json)) (acc r : List (Json × DiffOpInfo)),
      extractEntriesD entries acc = .ok r →
      ∀ k w, (k, w) ∈ acc → ∃ w2, (k, w2) ∈ r := by
  intro entries
  induction entries with
  | nil =>
    intro acc r h k w hm
    have : acc = r := (Except.ok.injEq _ _).mp h
    exact ⟨w, this ▸ hm⟩
  | cons e rest ih =>
    obtain ⟨pk, item⟩ := e
    intro acc r h k w hm
    rw [extractEntriesD] at h
    cases hme : extractMethodsD pk item methodList acc with
    | error er => rw [hme, exceptErrorBind] at h; exact nomatch h
    | ok acc2 =>
      rw [hme, exceptOkBind] at h
      obtain ⟨w2, hw2⟩ := extractMethodsD_mono pk item methodList acc acc2 hme k w hm
      exact ih acc2 r h k w2 hw2

theorem parseEntries_sub_extract :
    ∀ (entries : List (String × Json)) (acc : List (Json × DiffOpInfo))
      (l : List OperationMetadata) (r : List (Json × DiffOpInfo)),
      parseEntries entries = .ok l → extractEntriesD entries acc = .ok r →
      ∀ d ∈ l, ∃ w, (Json.str d.operationId, w) ∈ r := by
  intro entries
  induction entries with
  | nil =>
    intro acc l r hp _ d hd
    have : ([] : List OperationMetadata) = l := (Except.ok.injEq _ _).mp hp
    rw [← this] at hd
    simp at hd
  | cons e rest ih =>
    obtain ⟨pk, item⟩ := e
    intro acc l r hp he d hd
    rw [parseEntries] at hp
    rw [extractEntriesD] at he
    cases ho : parseMethods pk item methodList with
    | error er => rw [ho, exceptErrorBind] at hp; exact nomatch hp
    | ok ops =>
      rw [ho, exceptOkBind] at hp
      cases hrest : parseEntries rest with
      | error er => rw [hrest, exceptErrorBind] at hp; exact nomatch hp
      | ok more =>
        rw [hrest, exceptOkBind] at hp
        have hl : ops ++ more = l := (Except.ok.injEq _ _).mp hp
        rw [← hl] at hd
        cases hme : extractMethodsD pk item methodList acc with
        | error er => rw [hme, exceptErrorBind] at he; exact nomatch he
        | ok acc2 =>
          rw [hme, exceptOkBind] at he
          rcases List.mem_append.mp hd with hd1 | hd2
          · obtain ⟨w, hw⟩ := parseMethods_sub_extract pk item methodList acc ops acc2 ho hme d hd1
            exact extractEntriesD_mono rest acc2 r he (Json.str d.operationId) w hw
          · exact ih acc2 more r hrest he d hd2

/-- C10: the diff extractor dominates the generation extractor — every
operationId generation keeps also appears as a key of the diff map — and
strictly so: `extractOperations` admits any truthy `operationId` (here the
number 42, kept as the raw map key), which `parseOperations` silently
drops because it additionally requires a string. -/
theorem c10_extractOperations_superset :
    (∀ (spec : Json) (ops : List OperationMetadata) (m : List (Json × DiffOpInfo)),
      parseOperations spec = .ok ops → extractOperations spec = .ok m →
      ∀ d ∈ ops, ∃ info, (Json.str d.operationId, info) ∈ m) ∧
    parseOperations c3Spec = .ok [] ∧
    extractOperations c3Spec =
      .ok [(Json.num 42, ⟨Json.num 42, "get", "/a", false, Json.str ""⟩)] := by
  refine ⟨?_, rfl, rfl⟩
  intro spec ops m hp he d hd
  rw [parseOperations_eq_parseEntries] at hp
  rw [extractOperations_eq_extractEntriesD] at he
  exact parseEntries_sub_extract (specPathEntries spec) [] ops m hp he d hd

/-- Witness for C10 on a one-operation spec. -/
theorem c10_witness :
    ∃ info, (Json.str "g", info) ∈
      [(Json.str "g", (⟨Json.str "g", "get", "/a", false, Json.str ""⟩ : DiffOpInfo))] :=
  c10_extractOperations_superset.1
    (Json.obj [("paths", Json.obj [("/a", Json.obj [("get", Json.obj [("operationId", Json.str "g")])])])])
    [⟨"g", "get", "/a", [], false, false, Json.str "", Json.str ""⟩]
    [(Json.str "g", ⟨Json.str "g", "get", "/a", false, Json.str ""⟩)]
    rfl rfl
    ⟨"g", "get", "/a", [], false, false, Json.str "", Json.str ""⟩
    (List.mem_singleton.mpr rfl)

end Chowbea
